import Mathlib

/-!
Verification of `pam/samplers/tour.py` (tour synthesis core).

The Python source is embedded shallowly:

* numbers: Python `float`/`int` arithmetic is modelled exactly over `ℚ`/`ℤ`
  (the source only adds, multiplies, divides, clips and truncates, so exact
  rational arithmetic coincides with the intended real-number semantics);
* `int(x)` (truncation towards zero) is `pyInt`;
* Python list indexing (negative indices, `IndexError`) is `pyGet`;
* geometry is external to this core (shapely's `Point.distance`): a distance
  oracle `pdist : P → P → ℚ` is passed where the source calls `o.distance(d)`;
* randomness (`random.choices`) and facility resolution are external: draws
  are passed in as oracle data;
* exceptions are `Except PyErr`;
* the entities appended onto the external `agent` collaborator are returned
  as an ordered list.
-/

/-- Python exception outcomes the embedded code can produce. -/
inductive PyErr
  | indexError
  | keyError
  | typeError
  | zeroDivision
deriving DecidableEq

/-- Python `int(x)` on a float: truncation towards zero. -/
def pyInt (q : ℚ) : ℤ :=
  if 0 ≤ q then ⌊q⌋ else ⌈q⌉

/-- Python list indexing `l[i]`: a negative index counts from the end;
`none` models `IndexError`. -/
def pyGet {α : Type _} (l : List α) (i : ℤ) : Option α :=
  let j := if i < 0 then i + l.length else i
  if j < 0 then none else l.get? j.toNat

/-- Modelled from the spec: the end-of-day sentinel (`pam.variables.END_OF_DAY`,
not under `src/`) is "a fixed marker time representing the close of the modeled
day", i.e. the minute mark `24 * 60 = 1440` of the modelled day.  Activity end
times are either a concrete clock time in minutes (`pam.utils.minutes_to_datetime`
is a strictly monotone embedding of minutes into datetimes, so minutes are kept
as the time scale) or this sentinel. -/
inductive ETime
  | clock (m : ℤ)
  | eod
deriving DecidableEq

/-- Modelled from the spec: the sentinel compares as the 1440-minute mark
(`minutes_to_datetime m >= END_OF_DAY` iff `m ≥ 1440`); `toMin` renders both
forms of end time on that common minute scale. -/
def ETime.toMin : ETime → ℤ
  | clock m => m
  | eod => 1440

/-- Modelled from the spec: the boundary comparison
`mtdt(end_tm) >= END_OF_DAY` of the source, as a decidable proposition on
minutes. -/
def atOrPastEOD (m : ℤ) : Prop := 1440 ≤ m

instance : DecidablePred atOrPastEOD := fun m => inferInstanceAs (Decidable (1440 ≤ m))

/-- `ActivityDuration.model_distance`: scaled distance between two points
(`o.distance(d) * scale`); the point distance itself is external geometry,
supplied as `pdist`. -/
def ActivityDuration.model_distance {P : Type _} (pdist : P → P → ℚ) (o d : P) (scale : ℚ) : ℚ :=
  pdist o d * scale

/-- `ActivityDuration.model_journey_time`: `distance / speed`. -/
def ActivityDuration.model_journey_time (distance speed : ℚ) : ℚ :=
  distance / speed

/-- `ActivityDuration.model_stop_time`: `max([mini, min([time, maxi])])`. -/
def ActivityDuration.model_stop_time (time maxi mini : ℚ) : ℚ :=
  max mini (min time maxi)

/-- `ActivityDuration.model_activity_duration`: composes distance (detour
scale 1.4), journey time and clipped stop time; returns
`(stop_duration, start_tm, end_tm + int(trip_duration / 60))`. -/
def ActivityDuration.model_activity_duration {P : Type _} (pdist : P → P → ℚ) (o_loc d_loc : P)
    (end_tm : ℤ) (speed maxi mini : ℚ) : ℚ × ℤ × ℤ :=
  let trip_distance := ActivityDuration.model_distance pdist o_loc d_loc (7 / 5)
  let trip_duration := ActivityDuration.model_journey_time trip_distance speed
  let stop_duration := ActivityDuration.model_stop_time trip_duration maxi mini
  (stop_duration, end_tm, end_tm + pyInt (trip_duration / 60))

/-- Zones are opaque identifiers. -/
abbrev Zone := String

/-- `pam.activity.Activity` as appended by this core: sequence number,
activity-type label, zone, location, start and end time (the end time may be
the end-of-day sentinel). -/
structure ActivityE (P : Type _) where
  seq : ℤ
  act : String
  area : Zone
  loc : P
  start_time : ℤ
  end_time : ETime
deriving DecidableEq

/-- `pam.activity.Leg` as appended by this core. -/
structure LegE (P : Type _) where
  seq : ℤ
  mode : String
  start_area : Zone
  end_area : Zone
  start_loc : P
  end_loc : P
  start_time : ℤ
  end_time : ℤ
deriving DecidableEq

/-- One entity appended onto the external plan/agent collaborator. -/
inductive Entity (P : Type _)
  | act (a : ActivityE P)
  | leg (l : LegE P)
deriving DecidableEq

/-- The `time_params` dicts `apply`/`add_return_origin` build: each constructor
carries exactly the keys the corresponding call site puts in the dict
(`{"hour": …, "minute": …}`, `{"end_tm": …, "stop_duration": …}`,
`{"start_tm": …, "end_tm": …}`); reading a key the dict does not hold is a
`KeyError`. -/
inductive TimeParams
  | origin (hour minute : ℤ)
  | stop (end_tm : ℤ) (stop_duration : ℚ)
  | ret (start_tm : ℤ) (end_tm : ETime)

/-- `TourPlanner.__init__`'s fields used by `apply`; the distribution,
frequency, threshold and facility-sampler fields only feed `sequence_stops`,
whose random draws are externalized (see `TourPlanner.sequence_stops`). -/
structure TourPlanner where
  stops : ℕ
  hour : ℤ
  minute : ℤ
  o_zone : Zone
  o_activity : String
  d_activity : String

/-- `TourPlanner.add_tour_activity`: branches on the activity type exactly as
the source does (`o_activity` / `"return_origin"` / otherwise) and returns the
appended Activity together with the value the method returns (`end_tm`). -/
def TourPlanner.add_tour_activity {P : Type _} (tp : TourPlanner) (k : ℤ) (zone : Zone) (loc : P)
    (activity_type : String) (time_params : TimeParams) : Except PyErr (ActivityE P × ETime) :=
  if activity_type = tp.o_activity then
    match time_params with
    | .origin h m =>
      let end_tm := h * 60 + m
      .ok (⟨1, activity_type, zone, loc, 0, .clock end_tm⟩, .clock end_tm)
    | _ => .error .keyError
  else if activity_type = "return_origin" then
    match time_params with
    | .ret start_tm end_tm => .ok (⟨k + 2, tp.o_activity, zone, loc, start_tm, end_tm⟩, end_tm)
    | _ => .error .keyError
  else
    match time_params with
    | .stop end_tm stop_duration =>
      let e2 := end_tm + pyInt (stop_duration / 60)
      .ok (⟨k + 2, activity_type, zone, loc, end_tm, .clock e2⟩, .clock e2)
    | _ => .error .keyError

/-- `TourPlanner.add_tour_leg`: the appended Leg (mode fixed to `"car"`)
together with the returned `end_tm`. -/
def TourPlanner.add_tour_leg {P : Type _} (k : ℤ) (o_zone : Zone) (o_loc : P) (d_zone : Zone)
    (d_loc : P) (start_tm end_tm : ℤ) : LegE P × ℤ :=
  (⟨k + 1, "car", o_zone, d_zone, o_loc, d_loc, start_tm, end_tm⟩, end_tm)

/-- `TourPlanner.add_return_origin`: the return leg from the most recent stop
back to the origin, then the final origin activity whose end is the end-of-day
sentinel. -/
def TourPlanner.add_return_origin {P : Type _} (tp : TourPlanner) (pdist : P → P → ℚ) (k : ℤ)
    (o_loc : P) (d_zone : Zone) (d_loc : P) (end_tm : ℤ) :
    Except PyErr (List (Entity P) × ETime) :=
  let trip_distance := ActivityDuration.model_distance pdist o_loc d_loc (7 / 5)
  let trip_duration := ActivityDuration.model_journey_time trip_distance (50000 / 3600)
  let start_tm := end_tm
  let end_tm2 := end_tm + pyInt (trip_duration / 60)
  let lg := TourPlanner.add_tour_leg k d_zone d_loc tp.o_zone o_loc start_tm end_tm2
  match tp.add_tour_activity k tp.o_zone o_loc "return_origin" (.ret lg.2 .eod) with
  | .error e => .error e
  | .ok (a, et) => .ok ([Entity.leg lg.1, Entity.act a], et)

/-- The per-stop loop of `TourPlanner.apply` (`for k in range(self.stops)`),
as structural recursion on the number of remaining iterations (`rem`, starting
at `stops`) with `k` the current index.  Returns the appended entities, the
running cursor `end_tm` after the loop, and the index at which the loop
stopped (`stops` when it ran to completion, less when the boundary check
broke out). -/
def TourPlanner.applyLoop {P : Type _} (tp : TourPlanner) (pdist : P → P → ℚ) (o_loc : P)
    (d_zones : List Zone) (d_locs : List P) :
    ℕ → ℕ → ℤ → Except PyErr (List (Entity P) × ℤ × ℕ)
  | 0, k, end_tm => .ok ([], end_tm, k)
  | rem + 1, k, end_tm =>
    match pyGet d_locs (k : ℤ) with
    | none => .error .indexError
    | some dlk =>
      let md := ActivityDuration.model_activity_duration pdist o_loc dlk end_tm
        (50000 / 3600) 3600 600
      let stop_duration := md.1
      let start_tm := md.2.1
      let end_tm2 := md.2.2
      if atOrPastEOD end_tm2 ∨ atOrPastEOD (end_tm2 + pyInt (stop_duration / 60)) then
        .ok ([], end_tm2, k)
      else
        match (if k = 0 then some (tp.o_zone, o_loc) else
            match pyGet d_zones ((k : ℤ) - 1), pyGet d_locs ((k : ℤ) - 1) with
            | some z, some l => some (z, l)
            | _, _ => none),
          pyGet d_zones (k : ℤ) with
        | some pzl, some dzk =>
          let lg := TourPlanner.add_tour_leg (k : ℤ) pzl.1 pzl.2 dzk dlk start_tm end_tm2
          match tp.add_tour_activity (k : ℤ) dzk dlk tp.d_activity (.stop lg.2 stop_duration) with
          | .error e => .error e
          | .ok (_, .eod) => .error .typeError
          | .ok (a, .clock m) =>
            match tp.applyLoop pdist o_loc d_zones d_locs rem (k + 1) m with
            | .error e => .error e
            | .ok (ents, c, t) => .ok (Entity.leg lg.1 :: Entity.act a :: ents, c, t)
        | _, _ => .error .indexError

/-- `TourPlanner.apply`: first origin activity, the per-stop loop, then the
unconditional return couplet built from `d_zones[stops - 1]`/`d_locs[stops - 1]`
(Python indexing, so `-1` on an empty stop list is an `IndexError`).  The list
returned is the exact sequence of entities appended onto the agent. -/
def TourPlanner.apply {P : Type _} (tp : TourPlanner) (pdist : P → P → ℚ) (o_loc : P)
    (d_zones : List Zone) (d_locs : List P) : Except PyErr (List (Entity P)) :=
  match tp.add_tour_activity 1 tp.o_zone o_loc tp.o_activity (.origin tp.hour tp.minute) with
  | .error e => .error e
  | .ok (_, .eod) => .error .typeError
  | .ok (a0, .clock m0) =>
    match tp.applyLoop pdist o_loc d_zones d_locs tp.stops 0 m0 with
    | .error e => .error e
    | .ok (ents, end_tm, _t) =>
      match pyGet d_zones ((tp.stops : ℤ) - 1), pyGet d_locs ((tp.stops : ℤ) - 1) with
      | some dz, some dl =>
        match tp.add_return_origin pdist (tp.stops : ℤ) o_loc dz dl end_tm with
        | .error e => .error e
        | .ok (retEnts, _) => .ok (Entity.act a0 :: ents ++ retEnts)
      | _, _ => .error .indexError

/-- One record of the `d_seq` list `sequence_stops` builds per drawn stop:
`{"stops": j, "destination_zone": …, "destination_facility": …, "distance": …}`. -/
structure StopRec (P : Type _) where
  stops : ℕ
  destination_zone : Zone
  destination_facility : P
  distance : ℚ

/-- `TourPlanner.sequence_stops`: the random destination-zone draws and their
facility resolutions are external (one `(d_zone, d_facility)` pair per loop
iteration, passed as `draws`; `o_loc` is the resolved origin facility).  The
records are sorted by recorded distance, farthest first (`sorted(…,
key=distance, reverse=True)` is a stable descending sort), and the zone and
location columns are projected out. -/
def TourPlanner.sequence_stops {P : Type _} (pdist : P → P → ℚ) (o_loc : P)
    (draws : List (Zone × P)) : P × List Zone × List P :=
  let d_seq : List (StopRec P) := draws.enum.map fun jp =>
    ⟨jp.1, jp.2.1, jp.2.2, ActivityDuration.model_distance pdist o_loc jp.2.2 (7 / 5)⟩
  let d_sorted := d_seq.mergeSort fun a b => decide (b.distance ≤ a.distance)
  (o_loc, d_sorted.map (fun r => r.destination_zone),
    d_sorted.map (fun r => r.destination_facility))

/-- Outcome of `FrequencySampler.threshold_sample`: whether the
"no destinations within this threshold value" warning was issued, and the
sampled zone (`none` models Python's `None`). -/
structure ThresholdOut where
  warned : Bool
  result : Option Zone
deriving DecidableEq

/-- `FrequencySampler.threshold_sample`: `dist` is the distribution DataFrame
as (index zone, frequency-column value) rows; `threshold_matrix` is the cost
matrix row for the fixed origin as (zone, cost) entries; `pick` is the
external randomness of `random.choices`, reduced modulo the number of
surviving rows.  The matrix is filtered to costs at most `threshold_value`,
the distribution restricted to the surviving index set, and an empty survivor
set yields a warning and a null result. -/
def FrequencySampler.threshold_sample (dist : List (Zone × ℚ))
    (threshold_matrix : List (Zone × ℚ)) (threshold_value : ℚ) (pick : ℕ) : ThresholdOut :=
  let d_list := (threshold_matrix.filter fun p => decide (p.2 ≤ threshold_value)).map Prod.fst
  let d_threshold := dist.filter fun p => d_list.contains p.1
  if d_threshold.length = 0 then ⟨true, none⟩
  else ⟨false, (d_threshold.get? (pick % d_threshold.length)).map Prod.fst⟩

/-- A Python dict with `ℤ` keys and `ℚ` values, as its ordered (key, value)
entry list; dict keys never repeat. -/
abbrev ZDict := List (ℤ × ℚ)

/-- Python `k in d`. -/
def dictMem (d : ZDict) (k : ℤ) : Bool :=
  d.any fun p => p.1 == k

/-- Python `d[k]` (`none` models `KeyError`). -/
def dictGet (d : ZDict) (k : ℤ) : Option ℚ :=
  (d.find? fun p => p.1 == k).map Prod.snd

/-- Python `d[k] = v`: overwrite in place, or append a new key at the end. -/
def dictSet (d : ZDict) (k : ℤ) (v : ℚ) : ZDict :=
  if dictMem d k then d.map fun p => if p.1 == k then (p.1, v) else p
  else d ++ [(k, v)]

/-- Python `d.keys()` (in entry order). -/
def dictKeys (d : ZDict) : List ℤ :=
  d.map Prod.fst

/-- Python `sum(d.values())`. -/
def dictValuesSum (d : ZDict) : ℚ :=
  (d.map Prod.snd).sum

/-- `PivotDistributionSampler._interpolate`: `a + (i - ai) * (b - a) / (bi - ai)`;
`none` models the `ZeroDivisionError` (an `ArithmeticError`) Python raises when
`bi == ai`. -/
def PivotDistributionSampler.interpolate (i ai : ℤ) (a : ℚ) (bi : ℤ) (b : ℚ) : Option ℚ :=
  if bi = ai then none
  else some (a + ((i : ℚ) - (ai : ℚ)) * (b - a) / ((bi : ℚ) - (ai : ℚ)))

/-- The inner loop of `PivotDistributionSampler.__init__` for one adjacent
pivot pair `(ka, kb)`: every bin `i` with `ka <= i < kb` is assigned the
interpolated value. -/
def PivotDistributionSampler.assignPair (ka : ℤ) (pa : ℚ) (kb : ℤ) (pb : ℚ) :
    List ℤ → ZDict → Except PyErr ZDict
  | [], demand => .ok demand
  | i :: rest, demand =>
    if ka ≤ i ∧ i < kb then
      match PivotDistributionSampler.interpolate i ka pa kb pb with
      | none => .error .zeroDivision
      | some v => PivotDistributionSampler.assignPair ka pa kb pb rest (dictSet demand i v)
    else PivotDistributionSampler.assignPair ka pa kb pb rest demand

/-- The outer loop of `PivotDistributionSampler.__init__`
(`for k in range(len(pivot_keys) - 1)`): one `assignPair` pass per adjacent
pair of sorted pivot keys. -/
def PivotDistributionSampler.buildDemand (pivots : ZDict) (bins : List ℤ) :
    List ℤ → ZDict → Except PyErr ZDict
  | ka :: kb :: rest, demand =>
    match dictGet pivots ka, dictGet pivots kb with
    | some pa, some pb =>
      match PivotDistributionSampler.assignPair ka pa kb pb bins demand with
      | .error e => .error e
      | .ok demand2 => PivotDistributionSampler.buildDemand pivots bins (kb :: rest) demand2
    | _, _ => .error .keyError
  | _, demand => .ok demand

/-- The normalization loop of `PivotDistributionSampler.__init__`
(`for i in bins: self.demand[i] = (self.demand[i] / dist_sum) * total`);
dividing by a zero `dist_sum` is a `ZeroDivisionError`, a bin missing from the
demand dict a `KeyError`. -/
def PivotDistributionSampler.normalizeLoop (s total : ℚ) :
    List ℤ → ZDict → Except PyErr ZDict
  | [], demand => .ok demand
  | i :: rest, demand =>
    match dictGet demand i with
    | none => .error .keyError
    | some v =>
      if s = 0 then .error .zeroDivision
      else PivotDistributionSampler.normalizeLoop s total rest (dictSet demand i (v / s * total))

/-- `PivotDistributionSampler.__init__`: insert zero pivots at `bins[0]` and
`bins[-1] + 1` when absent, interpolate every bin between adjacent sorted
pivot keys, then rescale to `total` when one is supplied.  Returns the dense
demand dict together with the pivots dict as left after the in-place boundary
insertions (the caller's dict is mutated). -/
def PivotDistributionSampler.init (bins : List ℤ) (pivots : ZDict) (total : Option ℚ) :
    Except PyErr (ZDict × ZDict) :=
  match bins.head?, bins.getLast? with
  | some b0, some bl =>
    let pivots1 := if dictMem pivots b0 then pivots else dictSet pivots b0 0
    let pivots2 := if dictMem pivots1 (bl + 1) then pivots1 else dictSet pivots1 (bl + 1) 0
    let pivot_keys := (dictKeys pivots2).mergeSort fun a b => decide (a ≤ b)
    match PivotDistributionSampler.buildDemand pivots2 bins pivot_keys [] with
    | .error e => .error e
    | .ok demand =>
      match total with
      | none => .ok (demand, pivots2)
      | some t =>
        match PivotDistributionSampler.normalizeLoop (dictValuesSum demand) t bins demand with
        | .error e => .error e
        | .ok demand2 => .ok (demand2, pivots2)
  | _, _ => .error .indexError

/-- A contiguous ascending bin range `a, a+1, …, a+n-1` (Python `range`). -/
def binRange (a : ℤ) (n : ℕ) : List ℤ :=
  (List.range n).map fun j : ℕ => a + (j : ℤ)

/-- Start time of an appended entity, in minutes. -/
def entStartMin {P : Type _} : Entity P → ℤ
  | .act a => a.start_time
  | .leg l => l.start_time

/-- End time of an appended entity on the common minute scale (the sentinel
reads as minute 1440, see `ETime.toMin`). -/
def entEndMin {P : Type _} : Entity P → ℤ
  | .act a => a.end_time.toMin
  | .leg l => l.end_time

/-- The time chain of an appended entity run: starting cursor at most the
first start, every entity internally consistent (start at most end), each
entity starting no earlier than its predecessor ended, closing cursor at
least the last end. -/
def chainFrom {P : Type _} : ℤ → List (Entity P) → ℤ → Prop
  | c, [], c2 => c ≤ c2
  | c, e :: es, c2 =>
    c ≤ entStartMin e ∧ entStartMin e ≤ entEndMin e ∧ chainFrom (entEndMin e) es c2

/-- The monotonicity property the spec claims of an emitted sequence: each
entity's end at least its start, each entity's start at least the previous
entity's end (sentinel ends on the minute scale of `ETime.toMin`). -/
def tourMonotone {P : Type _} : List (Entity P) → Bool
  | [] => true
  | [e] => decide (entStartMin e ≤ entEndMin e)
  | e1 :: e2 :: r =>
    decide (entStartMin e1 ≤ entEndMin e1) && decide (entEndMin e1 ≤ entStartMin e2) &&
      tourMonotone (e2 :: r)

/-- C7: `model_activity_duration` returns the clipped stop time, the unchanged
cursor as start time, and the cursor advanced by the whole-minute travel time
(`floor` of the journey time over the 1.4-scaled distance divided by 60). -/
theorem C7_model_activity_duration {P : Type _} (pdist : P → P → ℚ) (o_loc d_loc : P)
    (end_tm : ℤ) (speed maxi mini : ℚ) (hd : 0 ≤ pdist o_loc d_loc) (hs : 0 < speed) :
    ActivityDuration.model_activity_duration pdist o_loc d_loc end_tm speed maxi mini =
      (ActivityDuration.model_stop_time
          (ActivityDuration.model_journey_time
            (ActivityDuration.model_distance pdist o_loc d_loc (7 / 5)) speed) maxi mini,
        end_tm,
        end_tm + ⌊ActivityDuration.model_journey_time
            (ActivityDuration.model_distance pdist o_loc d_loc (7 / 5)) speed / 60⌋) := by
  have h0 : (0:ℚ) ≤ ActivityDuration.model_journey_time
      (ActivityDuration.model_distance pdist o_loc d_loc (7 / 5)) speed / 60 := by
    have hdist : (0:ℚ) ≤ ActivityDuration.model_distance pdist o_loc d_loc (7 / 5) := by
      have : (0:ℚ) ≤ (7:ℚ) / 5 := by norm_num
      exact mul_nonneg hd this
    have hjt : (0:ℚ) ≤ ActivityDuration.model_journey_time
        (ActivityDuration.model_distance pdist o_loc d_loc (7 / 5)) speed :=
      div_nonneg hdist (le_of_lt hs)
    positivity
  unfold ActivityDuration.model_activity_duration
  simp only [pyInt, if_pos h0]

/-- Witness for C7 at a concrete input: points on a line at distance 10000,
default speed 50000/3600, default clip bounds. -/
theorem C7_model_activity_duration_witness :
    ActivityDuration.model_activity_duration (fun a b : ℚ => |a - b|) 0 10000 480
        (50000 / 3600) 3600 600 =
      (ActivityDuration.model_stop_time
          (ActivityDuration.model_journey_time
            (ActivityDuration.model_distance (fun a b : ℚ => |a - b|) 0 10000 (7 / 5))
            (50000 / 3600)) 3600 600,
        480,
        480 + ⌊ActivityDuration.model_journey_time
            (ActivityDuration.model_distance (fun a b : ℚ => |a - b|) 0 10000 (7 / 5))
            (50000 / 3600) / 60⌋) :=
  C7_model_activity_duration (fun a b : ℚ => |a - b|) 0 10000 480 (50000 / 3600) 3600 600
    (by norm_num) (by norm_num)

/-- C6: `threshold_sample` draws only from the part of the domain whose cost
in the matrix row is at most the threshold, and when nothing survives the
filter it issues the warning and returns a null result (returning normally,
never raising) — in particular whenever the threshold is below every cost. -/
theorem C6_threshold_sample (dist threshold_matrix : List (Zone × ℚ)) (threshold_value : ℚ)
    (pick : ℕ) :
    (∀ z, (FrequencySampler.threshold_sample dist threshold_matrix threshold_value pick).result
        = some z → ∃ c, (z, c) ∈ threshold_matrix ∧ c ≤ threshold_value) ∧
      ((∀ p ∈ threshold_matrix, threshold_value < p.2) →
        FrequencySampler.threshold_sample dist threshold_matrix threshold_value pick
          = ⟨true, none⟩) := by
  constructor
  · intro z hz
    unfold FrequencySampler.threshold_sample at hz
    by_cases hlen :
        (dist.filter fun p =>
          (((threshold_matrix.filter fun p => decide (p.2 ≤ threshold_value)).map
            Prod.fst).contains p.1)).length = 0
    · simp only [hlen, if_pos rfl] at hz
      exact absurd hz (by simp)
    · simp only [if_neg hlen] at hz
      rcases Option.map_eq_some'.mp hz with ⟨p, hp, hpz⟩
      have hpmem := List.get?_mem hp
      have hpf := List.mem_filter.mp hpmem
      have hcont := hpf.2
      rw [List.contains_iff_exists_mem_beq] at hcont
      rcases hcont with ⟨z', hz', hbeq⟩
      rcases List.mem_map.mp hz' with ⟨q, hq, hqz⟩
      have hqf := List.mem_filter.mp hq
      have hz'eq : p.1 = z' := by
        exact beq_iff_eq.mp hbeq
      refine ⟨q.2, ?_, by simpa using hqf.2⟩
      have : q = (z, q.2) := by
        have h1 : q.1 = z' := hqz ▸ rfl
        have h2 : z = p.1 := hpz ▸ rfl
        rw [Prod.ext_iff]
        exact ⟨by rw [h1, ← hz'eq, ← h2], rfl⟩
      rw [← this]
      exact hqf.1
  · intro hall
    unfold FrequencySampler.threshold_sample
    have hfilt : (threshold_matrix.filter fun p => decide (p.2 ≤ threshold_value)) = [] := by
      rw [List.filter_eq_nil_iff]
      intro p hp
      simp only [decide_eq_true_eq, not_le]
      exact hall p hp
    simp only [hfilt]
    simp

/-- Every record in the sorted stop sequence records the 1.4-scaled distance
from the origin facility to its own destination facility. -/
theorem sequence_stops_distance_mem {P : Type _} (pdist : P → P → ℚ) (o_loc : P)
    (draws : List (Zone × P)) (r : StopRec P)
    (hr : r ∈ (draws.enum.map fun jp =>
        (⟨jp.1, jp.2.1, jp.2.2, ActivityDuration.model_distance pdist o_loc jp.2.2 (7 / 5)⟩ :
          StopRec P)).mergeSort fun a b => decide (b.distance ≤ a.distance)) :
    r.distance = ActivityDuration.model_distance pdist o_loc r.destination_facility (7 / 5) := by
  rw [List.mem_mergeSort] at hr
  rcases List.mem_map.mp hr with ⟨jp, _, rfl⟩
  rfl

/-- C5: `sequence_stops` returns the drawn stops sorted by distance to the
origin in descending order: for positions `i < j` of the returned location
list, the straight-line distance from the origin to the location at `i` is at
least the one at `j`. -/
theorem C5_sequence_stops {P : Type _} (pdist : P → P → ℚ) (o_loc : P)
    (draws : List (Zone × P)) (i j : ℕ)
    (hi : i < (TourPlanner.sequence_stops pdist o_loc draws).2.2.length)
    (hj : j < (TourPlanner.sequence_stops pdist o_loc draws).2.2.length)
    (hij : i < j) :
    pdist o_loc ((TourPlanner.sequence_stops pdist o_loc draws).2.2.get ⟨j, hj⟩) ≤
      pdist o_loc ((TourPlanner.sequence_stops pdist o_loc draws).2.2.get ⟨i, hi⟩) := by
  classical
  set f : ℕ × (Zone × P) → StopRec P := fun jp =>
    ⟨jp.1, jp.2.1, jp.2.2, ActivityDuration.model_distance pdist o_loc jp.2.2 (7 / 5)⟩ with hf
  set le : StopRec P → StopRec P → Bool := fun a b => decide (b.distance ≤ a.distance) with hle
  set s : List (StopRec P) := (draws.enum.map f).mergeSort le with hs
  have hsorted : List.Pairwise (fun a b => le a b = true) s := by
    apply List.sorted_mergeSort
    · intro a b c hab hbc
      simp only [hle, decide_eq_true_eq] at hab hbc ⊢
      exact le_trans hbc hab
    · intro a b
      simp only [hle, Bool.or_eq_true, decide_eq_true_eq]
      exact le_total b.distance a.distance
  have hlen : (TourPlanner.sequence_stops pdist o_loc draws).2.2.length = s.length := by
    simp [TourPlanner.sequence_stops, hs, hf, hle]
  have hi' : i < s.length := hlen ▸ hi
  have hj' : j < s.length := hlen ▸ hj
  have hgi : (TourPlanner.sequence_stops pdist o_loc draws).2.2.get ⟨i, hi⟩ =
      (s.get ⟨i, hi'⟩).destination_facility := by
    simp [TourPlanner.sequence_stops, hs, hf, hle]
  have hgj : (TourPlanner.sequence_stops pdist o_loc draws).2.2.get ⟨j, hj⟩ =
      (s.get ⟨j, hj'⟩).destination_facility := by
    simp [TourPlanner.sequence_stops, hs, hf, hle]
  have hpair := List.pairwise_iff_getElem.mp hsorted i j hi' hj' hij
  simp only [hle, decide_eq_true_eq] at hpair
  have hdi : (s.get ⟨i, hi'⟩).distance =
      ActivityDuration.model_distance pdist o_loc (s.get ⟨i, hi'⟩).destination_facility (7 / 5) :=
    sequence_stops_distance_mem pdist o_loc draws _ (by
      have := List.get_mem s i hi'
      simpa [hs, hf, hle] using this)
  have hdj : (s.get ⟨j, hj'⟩).distance =
      ActivityDuration.model_distance pdist o_loc (s.get ⟨j, hj'⟩).destination_facility (7 / 5) :=
    sequence_stops_distance_mem pdist o_loc draws _ (by
      have := List.get_mem s j hj'
      simpa [hs, hf, hle] using this)
  have hgetisi : s[i] = s.get ⟨i, hi'⟩ := rfl
  have hgetisj : s[j] = s.get ⟨j, hj'⟩ := rfl
  rw [hgetisi, hgetisj, hdj, hdi] at hpair
  rw [hgi, hgj]
  have h75 : (0:ℚ) < 7 / 5 := by norm_num
  exact le_of_mul_le_mul_right (by simpa [ActivityDuration.model_distance] using hpair) h75

/-- Witness for C5 at the spec's concrete scenario: two draws at straight-line
distances 500 and 2000 from the origin; position 0 of the result is at least
as far as position 1. -/
theorem C5_sequence_stops_witness :
    (fun a b : ℚ => |a - b|) 0
        ((TourPlanner.sequence_stops (fun a b : ℚ => |a - b|) 0
            [("B", (500:ℚ)), ("C", (2000:ℚ))]).2.2.get
          ⟨1, by simp [TourPlanner.sequence_stops, List.length_mergeSort]⟩) ≤
      (fun a b : ℚ => |a - b|) 0
        ((TourPlanner.sequence_stops (fun a b : ℚ => |a - b|) 0
            [("B", (500:ℚ)), ("C", (2000:ℚ))]).2.2.get
          ⟨0, by simp [TourPlanner.sequence_stops, List.length_mergeSort]⟩) :=
  C5_sequence_stops (fun a b : ℚ => |a - b|) 0 [("B", (500:ℚ)), ("C", (2000:ℚ))] 0 1
    (by simp [TourPlanner.sequence_stops, List.length_mergeSort])
    (by simp [TourPlanner.sequence_stops, List.length_mergeSort])
    (by norm_num)


/-- The overwrite pass of `dictSet` never changes keys, so a key search commutes with it. -/
theorem find_map_overwrite (d : ZDict) (k : ℤ) (v : ℚ) (k' : ℤ) :
    List.find? (fun p => p.1 == k') (d.map fun p => if p.1 == k then (p.1, v) else p) =
      (List.find? (fun p => p.1 == k') d).map fun p => if p.1 == k then (p.1, v) else p := by
  induction d with
  | nil => simp
  | cons p d ih =>
    have hkey : ((if p.1 == k then (p.1, v) else p).1 == k') = (p.1 == k') := by
      by_cases hpk : p.1 == k <;> simp [hpk]
    simp only [List.map_cons, List.find?_cons, hkey]
    cases hpk' : (p.1 == k') with
    | true => simp
    | false => simpa using ih

/-- Keys of a dict after `dictSet`. -/
theorem dictKeys_dictSet (d : ZDict) (k : ℤ) (v : ℚ) :
    dictKeys (dictSet d k v) =
      if dictMem d k then dictKeys d else dictKeys d ++ [k] := by
  unfold dictSet
  by_cases hm : dictMem d k
  · rw [if_pos hm, if_pos hm]
    unfold dictKeys
    rw [List.map_map]
    congr 1
    funext p
    show (if p.1 == k then (p.1, v) else p).1 = p.1
    split <;> rfl
  · rw [if_neg hm, if_neg hm]
    unfold dictKeys
    simp

/-- Membership reads off the key list. -/
theorem dictMem_eq_keys (d : ZDict) (k : ℤ) :
    dictMem d k = (dictKeys d).any fun x => x == k := by
  induction d with
  | nil => rfl
  | cons p d ih =>
    unfold dictMem dictKeys at ih ⊢
    simp only [List.map_cons, List.any_cons]
    rw [ih]

/-- Membership is a successful key search. -/
theorem dictMem_iff_find (d : ZDict) (k : ℤ) :
    dictMem d k = true ↔ ∃ q, List.find? (fun p => p.1 == k) d = some q := by
  unfold dictMem
  rw [List.any_eq_true]
  constructor
  · intro h
    rcases h with ⟨p, hp, hpk⟩
    have hsome : (List.find? (fun p => p.1 == k) d).isSome = true :=
      List.find?_isSome.mpr ⟨p, hp, hpk⟩
    exact Option.isSome_iff_exists.mp hsome
  · intro h
    rcases h with ⟨q, hq⟩
    have h1 := List.find?_some hq
    exact ⟨q, List.mem_of_find?_eq_some hq, h1⟩

/-- Setting a key makes it a member. -/
theorem dictMem_dictSet_self (d : ZDict) (k : ℤ) (v : ℚ) :
    dictMem (dictSet d k v) k = true := by
  rw [dictMem_eq_keys, dictKeys_dictSet]
  by_cases hm : dictMem d k
  · rw [if_pos hm]
    rw [dictMem_eq_keys] at hm
    exact hm
  · rw [if_neg hm]
    simp

/-- Setting a key keeps all members. -/
theorem dictMem_dictSet_mono (d : ZDict) (k : ℤ) (v : ℚ) (k' : ℤ)
    (h : dictMem d k' = true) : dictMem (dictSet d k v) k' = true := by
  rw [dictMem_eq_keys, dictKeys_dictSet]
  rw [dictMem_eq_keys] at h
  by_cases hm : dictMem d k
  · rw [if_pos hm]; exact h
  · rw [if_neg hm]
    simp only [List.any_append, Bool.or_eq_true]
    exact Or.inl h

/-- A member after a set was a member before, or is the set key. -/
theorem dictMem_of_dictSet (d : ZDict) (k : ℤ) (v : ℚ) (k' : ℤ)
    (h : dictMem (dictSet d k v) k' = true) : dictMem d k' = true ∨ k' = k := by
  rw [dictMem_eq_keys, dictKeys_dictSet] at h
  by_cases hm : dictMem d k
  · rw [if_pos hm] at h
    exact Or.inl ((dictMem_eq_keys d k').symm ▸ h)
  · rw [if_neg hm] at h
    simp only [List.any_append, Bool.or_eq_true] at h
    rcases h with h | h
    · exact Or.inl ((dictMem_eq_keys d k').symm ▸ h)
    · right
      have : k = k' := by simpa using h
      exact this.symm

/-- Reading the key just set yields the new value. -/
theorem dictGet_dictSet_self (d : ZDict) (k : ℤ) (v : ℚ) :
    dictGet (dictSet d k v) k = some v := by
  unfold dictSet
  by_cases hm : dictMem d k
  · rw [if_pos hm]
    unfold dictGet
    rw [find_map_overwrite]
    rcases (dictMem_iff_find d k).mp hm with ⟨q, hq⟩
    have hqk := List.find?_some hq
    have heq : q.1 = k := by simpa using hqk
    rw [hq]
    simp [heq]
  · rw [if_neg hm]
    unfold dictGet
    rw [List.find?_append]
    have hnone : List.find? (fun p => p.1 == k) d = none := by
      cases hfind : List.find? (fun p => p.1 == k) d with
      | none => rfl
      | some q =>
        exact absurd ((dictMem_iff_find d k).mpr ⟨q, hfind⟩) (by simpa using hm)
    rw [hnone]
    simp

/-- Reading another key is unchanged by a set. -/
theorem dictGet_dictSet_ne (d : ZDict) (k : ℤ) (v : ℚ) (k' : ℤ) (h : k' ≠ k) :
    dictGet (dictSet d k v) k' = dictGet d k' := by
  unfold dictSet
  by_cases hm : dictMem d k
  · rw [if_pos hm]
    unfold dictGet
    rw [find_map_overwrite]
    cases hfind : List.find? (fun p => p.1 == k') d with
    | none => simp
    | some q =>
      have hqk' := List.find?_some hfind
      have h1 : q.1 = k' := by simpa using hqk'
      have hqk : ¬ q.1 = k := by rw [h1]; exact h
      simp [hqk]
  · rw [if_neg hm]
    unfold dictGet
    rw [List.find?_append]
    have hsingle : List.find? (fun p => p.1 == k') [(k, v)] = none := by
      rw [List.find?_cons]
      have : (((k, v) : ℤ × ℚ).1 == k') = false := by
        simp
        exact fun hc => absurd hc.symm h
      simp [this]
    cases hfind : List.find? (fun p => p.1 == k') d with
    | some q => simp
    | none => simp [hsingle]

/-- C10: `PivotDistributionSampler.__init__` mutates the caller's pivots dict:
after construction it additionally maps the first bin and one-past-the-last
bin to 0 whenever those keys were absent, and every pre-existing entry reads
unchanged. -/
theorem C10_init_mutates_pivots (bins : List ℤ) (pivots : ZDict) (total : Option ℚ)
    (b0 bl : ℤ) (demand pivots2 : ZDict)
    (hb0 : bins.head? = some b0) (hbl : bins.getLast? = some bl)
    (hok : PivotDistributionSampler.init bins pivots total = .ok (demand, pivots2)) :
    (dictMem pivots b0 = false → dictGet pivots2 b0 = some 0) ∧
      (dictMem pivots (bl + 1) = false → dictGet pivots2 (bl + 1) = some 0) ∧
      ∀ k, dictMem pivots k = true → dictGet pivots2 k = dictGet pivots k := by
  unfold PivotDistributionSampler.init at hok
  rw [hb0, hbl] at hok
  simp only [] at hok
  set pv1 := if dictMem pivots b0 then pivots else dictSet pivots b0 0 with hpv1def
  set pv2 := if dictMem pv1 (bl + 1) then pv1 else dictSet pv1 (bl + 1) 0 with hpv2def
  have hpv : pivots2 = pv2 := by
    cases hbd : PivotDistributionSampler.buildDemand pv2 bins
        ((dictKeys pv2).mergeSort fun a b => decide (a ≤ b)) [] with
    | error e => rw [hbd] at hok; exact absurd hok (by simp)
    | ok dem0 =>
      rw [hbd] at hok
      cases total with
      | none =>
        simp only [Except.ok.injEq, Prod.mk.injEq] at hok
        exact hok.2.symm
      | some t =>
        simp only [] at hok
        cases hnl : PivotDistributionSampler.normalizeLoop (dictValuesSum dem0) t bins dem0 with
        | error e => rw [hnl] at hok; exact absurd hok (by simp)
        | ok dem2 =>
          rw [hnl] at hok
          simp only [Except.ok.injEq, Prod.mk.injEq] at hok
          exact hok.2.symm
  subst hpv
  refine ⟨?_, ?_, ?_⟩
  · intro habs
    have hnb : ¬ (dictMem pivots b0 = true) := by simp [habs]
    have hpv1 : pv1 = dictSet pivots b0 0 := by rw [hpv1def, if_neg hnb]
    have h1 : dictGet pv1 b0 = some 0 := by rw [hpv1]; exact dictGet_dictSet_self _ _ _
    by_cases hc : dictMem pv1 (bl + 1) = true
    · rw [hpv2def, if_pos hc]; exact h1
    · rw [hpv2def, if_neg hc]
      by_cases hbb : b0 = bl + 1
      · exfalso
        apply hc
        rw [← hbb, hpv1]
        exact dictMem_dictSet_self _ _ _
      · rw [dictGet_dictSet_ne _ _ _ _ hbb]
        exact h1
  · intro habs
    by_cases hc : dictMem pv1 (bl + 1) = true
    · rw [hpv2def, if_pos hc]
      by_cases hb : dictMem pivots b0 = true
      · exfalso
        rw [hpv1def, if_pos hb] at hc
        rw [hc] at habs
        exact absurd habs (by simp)
      · have hnb : ¬ (dictMem pivots b0 = true) := hb
        have hpv1 : pv1 = dictSet pivots b0 0 := by rw [hpv1def, if_neg hnb]
        rw [hpv1] at hc
        rcases dictMem_of_dictSet _ _ _ _ hc with hmem | heq
        · rw [hmem] at habs; exact absurd habs (by simp)
        · rw [hpv1, heq]
          exact dictGet_dictSet_self _ _ _
    · rw [hpv2def, if_neg hc]
      exact dictGet_dictSet_self _ _ _
  · intro k hk
    have hk1 : dictGet pv1 k = dictGet pivots k ∧ dictMem pv1 k = true := by
      by_cases hb : dictMem pivots b0 = true
      · rw [hpv1def, if_pos hb]; exact ⟨rfl, hk⟩
      · have hpv1 : pv1 = dictSet pivots b0 0 := by rw [hpv1def, if_neg hb]
        have hkb : k ≠ b0 := by
          intro hkb
          rw [hkb] at hk
          exact hb hk
        constructor
        · rw [hpv1]; exact dictGet_dictSet_ne _ _ _ _ hkb
        · rw [hpv1]; exact dictMem_dictSet_mono _ _ _ _ hk
    by_cases hc : dictMem pv1 (bl + 1) = true
    · rw [hpv2def, if_pos hc]; exact hk1.1
    · rw [hpv2def, if_neg hc]
      have hkc : k ≠ bl + 1 := by
        intro hkc
        rw [hkc] at hk1
        exact hc hk1.2
      rw [dictGet_dictSet_ne _ _ _ _ hkc]
      exact hk1.1

theorem dictMem_keys_mem (d : ZDict) (k : ℤ) :
    dictMem d k = true ↔ k ∈ dictKeys d := by
  rw [dictMem_eq_keys, List.any_eq_true]
  constructor
  · rintro ⟨x, hx, hxk⟩
    have : x = k := by simpa using hxk
    exact this ▸ hx
  · intro h
    exact ⟨k, h, by simp⟩

theorem dictKeys_dictSet_nodup (d : ZDict) (k : ℤ) (v : ℚ)
    (h : (dictKeys d).Nodup) : (dictKeys (dictSet d k v)).Nodup := by
  rw [dictKeys_dictSet]
  by_cases hm : dictMem d k = true
  · rw [if_pos hm]; exact h
  · rw [if_neg hm]
    have hk : k ∉ dictKeys d := fun hc => hm ((dictMem_keys_mem d k).mpr hc)
    simp [List.nodup_append, h, hk]

theorem assignPair_spec (ka : ℤ) (pa : ℚ) (kb : ℤ) (pb : ℚ) (bins : List ℤ) :
    ∀ (demand : ZDict),
    ∃ d2, PivotDistributionSampler.assignPair ka pa kb pb bins demand = .ok d2 ∧
      (∀ i : ℤ, dictGet d2 i =
        if i ∈ bins ∧ ka ≤ i ∧ i < kb
        then some (pa + ((i:ℚ) - (ka:ℚ)) * (pb - pa) / ((kb:ℚ) - (ka:ℚ)))
        else dictGet demand i) ∧
      (∀ k, dictMem d2 k = true → dictMem demand k = true ∨ k ∈ bins) ∧
      (∀ k, dictMem demand k = true → dictMem d2 k = true) ∧
      ((dictKeys demand).Nodup → (dictKeys d2).Nodup) := by
  induction bins with
  | nil =>
    intro demand
    exact ⟨demand, rfl, by simp, fun k h => Or.inl h, fun k h => h, fun h => h⟩
  | cons i rest ih =>
    intro demand
    by_cases hguard : ka ≤ i ∧ i < kb
    · have hne : ¬ (kb = ka) := by
        intro hc
        rw [hc] at hguard
        exact absurd (lt_of_le_of_lt hguard.1 hguard.2) (lt_irrefl ka)
      have hint : PivotDistributionSampler.interpolate i ka pa kb pb =
          some (pa + ((i:ℚ) - (ka:ℚ)) * (pb - pa) / ((kb:ℚ) - (ka:ℚ))) := by
        unfold PivotDistributionSampler.interpolate
        rw [if_neg hne]
      rcases ih (dictSet demand i (pa + ((i:ℚ) - (ka:ℚ)) * (pb - pa) / ((kb:ℚ) - (ka:ℚ))))
        with ⟨d2, hok, hget, hsub, hmono, hnd⟩
      refine ⟨d2, ?_, ?_, ?_, ?_, ?_⟩
      · unfold PivotDistributionSampler.assignPair
        rw [if_pos hguard, hint]
        exact hok
      · intro j
        rw [hget j]
        by_cases hjr : j ∈ rest ∧ ka ≤ j ∧ j < kb
        · rw [if_pos hjr, if_pos ⟨List.mem_cons_of_mem i hjr.1, hjr.2⟩]
        · rw [if_neg hjr]
          by_cases hji : j = i
          · subst hji
            rw [if_pos ⟨List.mem_cons_self j rest, hguard⟩]
            exact dictGet_dictSet_self demand j _
          · have : ¬ (j ∈ i :: rest ∧ ka ≤ j ∧ j < kb) := by
              intro hc
              rcases List.mem_cons.mp hc.1 with h1 | h1
              · exact hji h1
              · exact hjr ⟨h1, hc.2⟩
            rw [if_neg this]
            exact dictGet_dictSet_ne demand i _ j hji
      · intro k hk
        rcases hsub k hk with hmem | hbin
        · rcases dictMem_of_dictSet demand i _ k hmem with h1 | h1
          · exact Or.inl h1
          · exact Or.inr (h1 ▸ List.mem_cons_self i rest)
        · exact Or.inr (List.mem_cons_of_mem i hbin)
      · intro k hk
        exact hmono k (dictMem_dictSet_mono demand i _ k hk)
      · intro h
        exact hnd (dictKeys_dictSet_nodup demand i _ h)
    · rcases ih demand with ⟨d2, hok, hget, hsub, hmono, hnd⟩
      refine ⟨d2, ?_, ?_, ?_, ?_, hnd⟩
      · unfold PivotDistributionSampler.assignPair
        rw [if_neg hguard]
        exact hok
      · intro j
        rw [hget j]
        by_cases hjr : j ∈ rest ∧ ka ≤ j ∧ j < kb
        · rw [if_pos hjr, if_pos ⟨List.mem_cons_of_mem i hjr.1, hjr.2⟩]
        · rw [if_neg hjr]
          have : ¬ (j ∈ i :: rest ∧ ka ≤ j ∧ j < kb) := by
            intro hc
            rcases List.mem_cons.mp hc.1 with h1 | h1
            · exact hguard (h1 ▸ hc.2)
            · exact hjr ⟨h1, hc.2⟩
          rw [if_neg this]
      · intro k hk
        rcases hsub k hk with h1 | h1
        · exact Or.inl h1
        · exact Or.inr (List.mem_cons_of_mem i h1)
      · exact hmono

theorem dictGet_isSome_of_mem (d : ZDict) (k : ℤ) (h : dictMem d k = true) :
    ∃ v, dictGet d k = some v := by
  rcases (dictMem_iff_find d k).mp h with ⟨q, hq⟩
  exact ⟨q.2, by unfold dictGet; rw [hq]; rfl⟩

theorem sorted_straddle : ∀ (ks : List ℤ), List.Pairwise (· < ·) ks →
    ∀ (i x y : ℤ), x ∈ ks → y ∈ ks → x ≤ i → i < y →
    ∃ l1 ka kb l2, ks = l1 ++ ka :: kb :: l2 ∧ ka ≤ i ∧ i < kb := by
  intro ks
  induction ks with
  | nil => intro _ i x y hx; exact absurd hx (List.not_mem_nil x)
  | cons k tail ih =>
    intro hpw i x y hx hy hxi hiy
    cases tail with
    | nil =>
      have hxk : x = k := by simpa using hx
      have hyk : y = k := by simpa using hy
      exact absurd (lt_of_le_of_lt hxi hiy) (by rw [hxk, hyk]; exact lt_irrefl k)
    | cons k2 tail2 =>
      have hk12 : k < k2 := (List.pairwise_cons.mp hpw).1 k2 (List.mem_cons_self k2 tail2)
      have hpwt : List.Pairwise (· < ·) (k2 :: tail2) := (List.pairwise_cons.mp hpw).2
      by_cases h2 : i < k2
      · have hxk : x = k := by
          rcases List.mem_cons.mp hx with h1 | h1
          · exact h1
          · exfalso
            have hk2x : k2 ≤ x := by
              rcases List.mem_cons.mp h1 with h3 | h3
              · exact h3 ▸ le_refl k2
              · exact le_of_lt ((List.pairwise_cons.mp hpwt).1 x h3)
            exact absurd (lt_of_le_of_lt (le_trans hk2x hxi) h2) (lt_irrefl k2)
        exact ⟨[], k, k2, tail2, rfl, hxk ▸ hxi, h2⟩
      · push_neg at h2
        have hyt : y ∈ k2 :: tail2 := by
          rcases List.mem_cons.mp hy with h1 | h1
          · exfalso
            exact absurd (lt_of_le_of_lt (le_trans (le_of_lt hk12) h2) hiy)
              (by rw [h1]; exact fun hc => absurd hc (lt_irrefl k))
          · exact h1
        rcases ih hpwt i k2 y (List.mem_cons_self k2 tail2) hyt h2 hiy with
          ⟨l1, ka, kb, l2, heq, hka, hkb⟩
        exact ⟨k :: l1, ka, kb, l2, by rw [List.cons_append, heq], hka, hkb⟩

theorem buildDemand_spec (pivots : ZDict) (bins : List ℤ) :
    ∀ (ks : List ℤ), List.Pairwise (· < ·) ks →
    (∀ k ∈ ks, dictMem pivots k = true) →
    ∀ (demand : ZDict),
    ∃ d2, PivotDistributionSampler.buildDemand pivots bins ks demand = .ok d2 ∧
      (∀ k, dictMem d2 k = true → dictMem demand k = true ∨ k ∈ bins) ∧
      (∀ k, dictMem demand k = true → dictMem d2 k = true) ∧
      ((dictKeys demand).Nodup → (dictKeys d2).Nodup) ∧
      (∀ i : ℤ, (∀ l1 ka kb l2, ks = l1 ++ ka :: kb :: l2 → ¬(ka ≤ i ∧ i < kb)) →
          dictGet d2 i = dictGet demand i) ∧
      (∀ l1 ka kb l2, ks = l1 ++ ka :: kb :: l2 →
        ∀ i, i ∈ bins → ka ≤ i → i < kb →
        ∀ pa pb, dictGet pivots ka = some pa → dictGet pivots kb = some pb →
        dictGet d2 i = some (pa + ((i:ℚ) - (ka:ℚ)) * (pb - pa) / ((kb:ℚ) - (ka:ℚ)))) := by
  intro ks
  induction ks with
  | nil =>
    intro _ _ demand
    refine ⟨demand, rfl, fun k h => Or.inl h, fun k h => h, fun h => h, fun i _ => rfl, ?_⟩
    intro l1 ka kb l2 heq
    exfalso
    have := congrArg List.length heq
    simp [List.length_append] at this
    omega
  | cons ka tail ih =>
    intro hpw hmem demand
    cases tail with
    | nil =>
      refine ⟨demand, rfl, fun k h => Or.inl h, fun k h => h, fun h => h, fun i _ => rfl, ?_⟩
      intro l1 x y l2 heq
      exfalso
      have := congrArg List.length heq
      simp [List.length_append] at this
      omega
    | cons kb rest =>
      have hpwt : List.Pairwise (· < ·) (kb :: rest) := (List.pairwise_cons.mp hpw).2
      have hkab : ka < kb := (List.pairwise_cons.mp hpw).1 kb (List.mem_cons_self kb rest)
      rcases dictGet_isSome_of_mem pivots ka (hmem ka (List.mem_cons_self _ _)) with ⟨pa, hpa⟩
      rcases dictGet_isSome_of_mem pivots kb
        (hmem kb (List.mem_cons_of_mem ka (List.mem_cons_self _ _))) with ⟨pb, hpb⟩
      rcases assignPair_spec ka pa kb pb bins demand with ⟨dm2, hok2, hget2, hsub2, hmono2, hnd2⟩
      rcases ih hpwt (fun k hk => hmem k (List.mem_cons_of_mem ka hk)) dm2 with
        ⟨d2, hok, hsub, hmono, hnd, hframe, hmain⟩
      refine ⟨d2, ?_, ?_, ?_, ?_, ?_, ?_⟩
      · unfold PivotDistributionSampler.buildDemand
        rw [hpa, hpb]
        simp only []
        rw [hok2]
        exact hok
      · intro k hk
        rcases hsub k hk with h1 | h1
        · rcases hsub2 k h1 with h3 | h3
          · exact Or.inl h3
          · exact Or.inr h3
        · exact Or.inr h1
      · intro k hk
        exact hmono k (hmono2 k hk)
      · intro h
        exact hnd (hnd2 h)
      · intro i hnone
        have hfr : dictGet d2 i = dictGet dm2 i := by
          apply hframe
          intro l1 x y l2 heq
          exact hnone (ka :: l1) x y l2 (by rw [List.cons_append, heq])
        rw [hfr, hget2 i]
        have : ¬ (ka ≤ i ∧ i < kb) := hnone [] ka kb rest rfl
        rw [if_neg (fun hc => this hc.2)]
      · intro l1 x y l2 heq i hibins hxi hiy px py hpx hpy
        cases l1 with
        | nil =>
          rw [List.nil_append] at heq
          injection heq with h1 h2
          injection h2 with h3 h4
          subst h1
          subst h3
          subst h4
          have hfr : dictGet d2 i = dictGet dm2 i := by
            apply hframe
            intro l1' u w l2' heq'
            intro hc
            have hu : u ∈ kb :: rest := by
              rw [heq']
              exact List.mem_append_right l1' (List.mem_cons_self u _)
            have hkbu : kb ≤ u := by
              rcases List.mem_cons.mp hu with h3 | h3
              · exact h3 ▸ le_refl kb
              · exact le_of_lt ((List.pairwise_cons.mp hpwt).1 u h3)
            exact absurd (lt_of_le_of_lt (le_trans hkbu hc.1) hiy) (lt_irrefl kb)
          rw [hfr, hget2 i, if_pos ⟨hibins, hxi, hiy⟩]
          have hpaeq : pa = px := by
            rw [hpa] at hpx
            exact Option.some.inj hpx
          have hpbeq : pb = py := by
            rw [hpb] at hpy
            exact Option.some.inj hpy
          rw [hpaeq, hpbeq]
        | cons z l1' =>
          have heqt : kb :: rest = l1' ++ x :: y :: l2 := by
            have := congrArg (fun l => l.tail) heq
            simpa using this
          exact hmain l1' x y l2 heqt i hibins hxi hiy px py hpx hpy

theorem normalizeLoop_spec (t : ℚ) : ∀ (bins : List ℤ), ∀ (demand : ZDict), ∀ (s : ℚ),
    s ≠ 0 → bins.Nodup → (dictKeys demand).Nodup →
    (∀ i ∈ bins, dictMem demand i = true) →
    PivotDistributionSampler.normalizeLoop s t bins demand =
      .ok (demand.map fun p => (p.1, if p.1 ∈ bins then p.2 / s * t else p.2)) := by
  intro bins
  induction bins with
  | nil =>
    intro demand s _ _ _ _
    unfold PivotDistributionSampler.normalizeLoop
    simp
  | cons i rest ih =>
    intro demand s hs hnodup hkeys hmem
    have hm := hmem i (List.mem_cons_self i rest)
    rcases dictGet_isSome_of_mem demand i hm with ⟨v, hv⟩
    have hinr : i ∉ rest := (List.nodup_cons.mp hnodup).1
    have hnr : rest.Nodup := (List.nodup_cons.mp hnodup).2
    unfold PivotDistributionSampler.normalizeLoop
    rw [hv]
    simp only []
    rw [if_neg hs]
    rw [ih (dictSet demand i (v / s * t)) s hs hnr
      (dictKeys_dictSet_nodup demand i _ hkeys)
      (fun j hj => dictMem_dictSet_mono demand i _ j (hmem j (List.mem_cons_of_mem i hj)))]
    congr 1
    have hset : dictSet demand i (v / s * t) =
        demand.map fun p => if p.1 == i then (p.1, v / s * t) else p := by
      unfold dictSet
      rw [if_pos hm]
    rw [hset, List.map_map]
    apply List.map_congr_left
    intro p hp
    by_cases hpi : p.1 = i
    · have hveq : v = p.2 := by
        rcases (dictMem_iff_find demand i).mp hm with ⟨q, hq⟩
        have hqmem := List.mem_of_find?_eq_some hq
        have hqi := List.find?_some hq
        have hqi' : q.1 = i := by simpa using hqi
        have hpq : p = q := List.inj_on_of_nodup_map hkeys hp hqmem (by rw [hpi, hqi'])
        have hvq : dictGet demand i = some q.2 := by
          unfold dictGet
          rw [hq]
          rfl
        rw [hv] at hvq
        rw [hpq]
        exact Option.some.inj hvq
      simp only [Function.comp_apply, hpi, beq_self_eq_true, if_true, List.mem_cons]
      rw [if_neg hinr]
      simp [hveq]
    · have hbeq : (p.1 == i) = false := by simp [hpi]
      simp only [Function.comp_apply, hbeq, Bool.false_eq_true, if_false, List.mem_cons]
      by_cases hr : p.1 ∈ rest
      · simp [hr]
      · simp [hr, hpi]

theorem pivots_insert_spec (pivots pv1 pv2 : ZDict) (b0 c : ℤ)
    (h1 : pv1 = if dictMem pivots b0 then pivots else dictSet pivots b0 0)
    (h2 : pv2 = if dictMem pv1 c then pv1 else dictSet pv1 c 0) :
    (dictMem pivots b0 = false → dictGet pv2 b0 = some 0) ∧
      (dictMem pivots c = false → dictGet pv2 c = some 0) ∧
      (∀ k, dictMem pivots k = true → dictGet pv2 k = dictGet pivots k) ∧
      dictMem pv2 b0 = true ∧ dictMem pv2 c = true ∧
      ((dictKeys pivots).Nodup → (dictKeys pv2).Nodup) := by
  have hm1 : dictMem pv1 b0 = true := by
    by_cases hb : dictMem pivots b0 = true
    · rw [h1, if_pos hb]; exact hb
    · rw [h1, if_neg hb]; exact dictMem_dictSet_self _ _ _
  have hnd1 : (dictKeys pivots).Nodup → (dictKeys pv1).Nodup := by
    intro h
    by_cases hb : dictMem pivots b0 = true
    · rw [h1, if_pos hb]; exact h
    · rw [h1, if_neg hb]; exact dictKeys_dictSet_nodup _ _ _ h
  refine ⟨?_, ?_, ?_, ?_, ?_, ?_⟩
  · intro habs
    have hnb : ¬ (dictMem pivots b0 = true) := by simp [habs]
    have hpv1 : pv1 = dictSet pivots b0 0 := by rw [h1, if_neg hnb]
    have hg1 : dictGet pv1 b0 = some 0 := by rw [hpv1]; exact dictGet_dictSet_self _ _ _
    by_cases hc : dictMem pv1 c = true
    · rw [h2, if_pos hc]; exact hg1
    · rw [h2, if_neg hc]
      by_cases hbb : b0 = c
      · exfalso
        apply hc
        rw [← hbb, hpv1]
        exact dictMem_dictSet_self _ _ _
      · rw [dictGet_dictSet_ne _ _ _ _ hbb]
        exact hg1
  · intro habs
    by_cases hc : dictMem pv1 c = true
    · rw [h2, if_pos hc]
      by_cases hb : dictMem pivots b0 = true
      · exfalso
        rw [h1, if_pos hb] at hc
        rw [hc] at habs
        exact absurd habs (by simp)
      · have hpv1 : pv1 = dictSet pivots b0 0 := by rw [h1, if_neg hb]
        rw [hpv1] at hc
        rcases dictMem_of_dictSet _ _ _ _ hc with hmem | heq
        · rw [hmem] at habs; exact absurd habs (by simp)
        · rw [hpv1, heq]
          exact dictGet_dictSet_self _ _ _
    · rw [h2, if_neg hc]
      exact dictGet_dictSet_self _ _ _
  · intro k hk
    have hk1 : dictGet pv1 k = dictGet pivots k ∧ dictMem pv1 k = true := by
      by_cases hb : dictMem pivots b0 = true
      · rw [h1, if_pos hb]; exact ⟨rfl, hk⟩
      · have hpv1 : pv1 = dictSet pivots b0 0 := by rw [h1, if_neg hb]
        have hkb : k ≠ b0 := by
          intro hkb
          rw [hkb] at hk
          exact hb hk
        constructor
        · rw [hpv1]; exact dictGet_dictSet_ne _ _ _ _ hkb
        · rw [hpv1]; exact dictMem_dictSet_mono _ _ _ _ hk
    by_cases hc : dictMem pv1 c = true
    · rw [h2, if_pos hc]; exact hk1.1
    · rw [h2, if_neg hc]
      have hkc : k ≠ c := by
        intro hkc
        rw [hkc] at hk1
        exact hc hk1.2
      rw [dictGet_dictSet_ne _ _ _ _ hkc]
      exact hk1.1
  · by_cases hc : dictMem pv1 c = true
    · rw [h2, if_pos hc]; exact hm1
    · rw [h2, if_neg hc]; exact dictMem_dictSet_mono _ _ _ _ hm1
  · by_cases hc : dictMem pv1 c = true
    · rw [h2, if_pos hc]; exact hc
    · rw [h2, if_neg hc]; exact dictMem_dictSet_self _ _ _
  · intro h
    by_cases hc : dictMem pv1 c = true
    · rw [h2, if_pos hc]; exact hnd1 h
    · rw [h2, if_neg hc]; exact dictKeys_dictSet_nodup _ _ _ (hnd1 h)

theorem init_none_inv (bins : List ℤ) (pivots : ZDict) (b0 bl : ℤ) (demand pivots2 : ZDict)
    (hb0 : bins.head? = some b0) (hbl : bins.getLast? = some bl)
    (hok : PivotDistributionSampler.init bins pivots none = .ok (demand, pivots2)) :
    pivots2 = (if dictMem (if dictMem pivots b0 then pivots else dictSet pivots b0 0) (bl + 1)
        then if dictMem pivots b0 then pivots else dictSet pivots b0 0
        else dictSet (if dictMem pivots b0 then pivots else dictSet pivots b0 0) (bl + 1) 0) ∧
      PivotDistributionSampler.buildDemand pivots2 bins
        ((dictKeys pivots2).mergeSort fun a b => decide (a ≤ b)) [] = .ok demand := by
  unfold PivotDistributionSampler.init at hok
  rw [hb0, hbl] at hok
  simp only [] at hok
  set pv1 := if dictMem pivots b0 then pivots else dictSet pivots b0 0 with hpv1def
  set pv2 := if dictMem pv1 (bl + 1) then pv1 else dictSet pv1 (bl + 1) 0 with hpv2def
  cases hbd : PivotDistributionSampler.buildDemand pv2 bins
      ((dictKeys pv2).mergeSort fun a b => decide (a ≤ b)) [] with
  | error e => rw [hbd] at hok; exact absurd hok (by simp)
  | ok dem0 =>
    rw [hbd] at hok
    simp only [Except.ok.injEq, Prod.mk.injEq] at hok
    obtain ⟨hd, hp⟩ := hok
    subst hd
    subst hp
    exact ⟨rfl, hbd⟩

theorem sortedKeys_pairwise (l : List ℤ) (h : l.Nodup) :
    List.Pairwise (· < ·) (l.mergeSort fun a b => decide (a ≤ b)) := by
  have hperm := List.mergeSort_perm l (fun a b => decide (a ≤ b))
  have hnd : (l.mergeSort fun a b => decide (a ≤ b)).Nodup := hperm.nodup_iff.mpr h
  have hsort : List.Pairwise (fun a b => (fun a b : ℤ => decide (a ≤ b)) a b = true)
      (l.mergeSort fun a b => decide (a ≤ b)) := by
    apply List.sorted_mergeSort
    · intro a b c hab hbc
      simp only [decide_eq_true_eq] at hab hbc ⊢
      exact le_trans hab hbc
    · intro a b
      simp only [Bool.or_eq_true, decide_eq_true_eq]
      exact le_total a b
  have hcomb := hsort.and hnd
  exact hcomb.imp fun hab => lt_of_le_of_ne (by simpa using hab.1) hab.2

theorem dictMem_of_get_some (d : ZDict) (k : ℤ) (v : ℚ) (h : dictGet d k = some v) :
    dictMem d k = true := by
  unfold dictGet at h
  cases hfind : List.find? (fun p => p.1 == k) d with
  | none => rw [hfind] at h; exact absurd h (by simp)
  | some q => exact (dictMem_iff_find d k).mpr ⟨q, hfind⟩

/-- C9: construction inserts zero pivots at the first bin and one-past-the-last
bin when absent, and assigns every bin `i` lying between adjacent sorted pivot
keys `ka <= i < kb` the value `pivot_a + (i - ka) * (pivot_b - pivot_a) / (kb - ka)`;
`_interpolate` itself fails (the `ZeroDivisionError`, an `ArithmeticError`)
whenever its two pivot keys coincide. -/
theorem C9_init_interpolation (bins : List ℤ) (pivots : ZDict) (b0 bl : ℤ)
    (demand pivots2 : ZDict)
    (hb0 : bins.head? = some b0) (hbl : bins.getLast? = some bl)
    (hkeys : (dictKeys pivots).Nodup)
    (hok : PivotDistributionSampler.init bins pivots none = .ok (demand, pivots2)) :
    (dictMem pivots b0 = false → dictGet pivots2 b0 = some 0) ∧
      (dictMem pivots (bl + 1) = false → dictGet pivots2 (bl + 1) = some 0) ∧
      (∀ l1 ka kb l2,
        (dictKeys pivots2).mergeSort (fun a b => decide (a ≤ b)) = l1 ++ ka :: kb :: l2 →
        ∀ i, i ∈ bins → ka ≤ i → i < kb →
        ∀ pa pb, dictGet pivots2 ka = some pa → dictGet pivots2 kb = some pb →
        dictGet demand i = some (pa + ((i:ℚ) - (ka:ℚ)) * (pb - pa) / ((kb:ℚ) - (ka:ℚ)))) ∧
      (∀ i ka a b, PivotDistributionSampler.interpolate i ka a ka b = none) := by
  obtain ⟨hpv, hbd⟩ := init_none_inv bins pivots b0 bl demand pivots2 hb0 hbl hok
  have hins := pivots_insert_spec pivots
    (if dictMem pivots b0 then pivots else dictSet pivots b0 0)
    (if dictMem (if dictMem pivots b0 then pivots else dictSet pivots b0 0) (bl + 1)
      then if dictMem pivots b0 then pivots else dictSet pivots b0 0
      else dictSet (if dictMem pivots b0 then pivots else dictSet pivots b0 0) (bl + 1) 0)
    b0 (bl + 1) rfl rfl
  rw [← hpv] at hins
  refine ⟨hins.1, hins.2.1, ?_, ?_⟩
  · intro l1 ka kb l2 heq i hibins hka hkb pa pb hpa hpb
    have hkeys2 : (dictKeys pivots2).Nodup := hins.2.2.2.2.2 hkeys
    have hpw := sortedKeys_pairwise (dictKeys pivots2) hkeys2
    have hmems : ∀ k ∈ (dictKeys pivots2).mergeSort fun a b => decide (a ≤ b),
        dictMem pivots2 k = true := by
      intro k hk
      exact (dictMem_keys_mem pivots2 k).mpr (List.mem_mergeSort.mp hk)
    rcases buildDemand_spec pivots2 bins _ hpw hmems [] with
      ⟨d2, hok2, _, _, _, _, hmain⟩
    rw [hbd] at hok2
    have hd2 : d2 = demand := by
      exact (Except.ok.inj hok2).symm
    subst hd2
    exact hmain l1 ka kb l2 heq i hibins hka hkb pa pb hpa hpb
  · intro i ka a b
    unfold PivotDistributionSampler.interpolate
    rw [if_pos rfl]

theorem binRange_head (a : ℤ) (m : ℕ) : (binRange a (m + 1)).head? = some a := by
  unfold binRange
  rw [List.range_succ_eq_map]
  simp

theorem binRange_getLast (a : ℤ) (m : ℕ) :
    (binRange a (m + 1)).getLast? = some (a + (m : ℤ)) := by
  unfold binRange
  rw [List.range_succ]
  simp

theorem mem_binRange (a : ℤ) (n : ℕ) (i : ℤ) :
    i ∈ binRange a n ↔ a ≤ i ∧ i < a + (n : ℤ) := by
  unfold binRange
  simp only [List.mem_map, List.mem_range]
  constructor
  · rintro ⟨j, hj, rfl⟩
    omega
  · rintro ⟨h1, h2⟩
    exact ⟨(i - a).toNat, by omega, by omega⟩

theorem binRange_nodup (a : ℤ) (n : ℕ) : (binRange a n).Nodup := by
  unfold binRange
  refine List.Nodup.map ?_ (List.nodup_range n)
  intro x y hxy
  simp only [add_right_inj, Nat.cast_inj] at hxy
  exact hxy

/-- C8: when a target total is supplied and the raw interpolated sum is
non-zero, construction succeeds and the dense per-bin values after
normalization sum exactly to the total. -/
theorem C8_init_total_sum (a : ℤ) (m : ℕ) (pivots : ZDict) (t : ℚ)
    (demand0 pivots2 : ZDict)
    (hkeys : (dictKeys pivots).Nodup)
    (hraw : PivotDistributionSampler.init (binRange a (m + 1)) pivots none
      = .ok (demand0, pivots2))
    (hsum : dictValuesSum demand0 ≠ 0) :
    ∃ demand', PivotDistributionSampler.init (binRange a (m + 1)) pivots (some t)
        = .ok (demand', pivots2) ∧ dictValuesSum demand' = t := by
  have hb0 := binRange_head a m
  have hbl := binRange_getLast a m
  obtain ⟨hpv, hbd⟩ := init_none_inv _ pivots a (a + (m : ℤ)) demand0 pivots2 hb0 hbl hraw
  have hins := pivots_insert_spec pivots
    (if dictMem pivots a then pivots else dictSet pivots a 0)
    (if dictMem (if dictMem pivots a then pivots else dictSet pivots a 0) (a + (m : ℤ) + 1)
      then if dictMem pivots a then pivots else dictSet pivots a 0
      else dictSet (if dictMem pivots a then pivots else dictSet pivots a 0) (a + (m : ℤ) + 1) 0)
    a (a + (m : ℤ) + 1) rfl rfl
  rw [← hpv] at hins
  have hkeys2 : (dictKeys pivots2).Nodup := hins.2.2.2.2.2 hkeys
  have hpw := sortedKeys_pairwise (dictKeys pivots2) hkeys2
  have hmems : ∀ k ∈ (dictKeys pivots2).mergeSort fun a b => decide (a ≤ b),
      dictMem pivots2 k = true := by
    intro k hk
    exact (dictMem_keys_mem pivots2 k).mpr (List.mem_mergeSort.mp hk)
  rcases buildDemand_spec pivots2 (binRange a (m + 1)) _ hpw hmems [] with
    ⟨d2, hok2, hsub, _, hnd, _, hmain⟩
  rw [hbd] at hok2
  have hd2 : d2 = demand0 := (Except.ok.inj hok2).symm
  rw [hd2] at hsub hnd hmain
  have hkeysd : (dictKeys demand0).Nodup := hnd (by simp [dictKeys])
  have hsubbins : ∀ k, dictMem demand0 k = true → k ∈ binRange a (m + 1) := by
    intro k hk
    rcases hsub k hk with h1 | h1
    · exact absurd h1 (by simp [dictMem])
    · exact h1
  have hcov : ∀ i ∈ binRange a (m + 1), dictMem demand0 i = true := by
    intro i hi
    rw [mem_binRange] at hi
    have ha_ks : a ∈ (dictKeys pivots2).mergeSort fun a b => decide (a ≤ b) :=
      List.mem_mergeSort.mpr ((dictMem_keys_mem pivots2 a).mp hins.2.2.2.1)
    have hy_ks : a + (m : ℤ) + 1 ∈ (dictKeys pivots2).mergeSort fun a b => decide (a ≤ b) :=
      List.mem_mergeSort.mpr ((dictMem_keys_mem pivots2 _).mp hins.2.2.2.2.1)
    rcases sorted_straddle _ hpw i a (a + (m : ℤ) + 1) ha_ks hy_ks hi.1 (by push_cast at hi ⊢; omega)
      with ⟨l1, ka, kb, l2, heq, hka, hkb⟩
    have hkamem : dictMem pivots2 ka = true := by
      apply hmems
      rw [heq]
      exact List.mem_append_right l1 (List.mem_cons_self ka _)
    have hkbmem : dictMem pivots2 kb = true := by
      apply hmems
      rw [heq]
      exact List.mem_append_right l1 (List.mem_cons_of_mem ka (List.mem_cons_self kb _))
    rcases dictGet_isSome_of_mem pivots2 ka hkamem with ⟨pa, hpa⟩
    rcases dictGet_isSome_of_mem pivots2 kb hkbmem with ⟨pb, hpb⟩
    have hgi := hmain l1 ka kb l2 heq i ((mem_binRange a (m + 1) i).mpr hi) hka hkb pa pb hpa hpb
    exact dictMem_of_get_some demand0 i _ hgi
  have hnl := normalizeLoop_spec t (binRange a (m + 1)) demand0 (dictValuesSum demand0) hsum
    (binRange_nodup a (m + 1)) hkeysd hcov
  refine ⟨demand0.map fun p =>
      (p.1, if p.1 ∈ binRange a (m + 1) then p.2 / dictValuesSum demand0 * t else p.2), ?_, ?_⟩
  · unfold PivotDistributionSampler.init
    rw [hb0, hbl]
    simp only []
    rw [← hpv, hbd]
    simp only []
    rw [hnl]
  · set s := dictValuesSum demand0 with hsdef
    have hall : ∀ p ∈ demand0,
        (if p.1 ∈ binRange a (m + 1) then p.2 / s * t else p.2)
          = p.2 * (s⁻¹ * t) := by
      intro p hp
      have hpk : p.1 ∈ binRange a (m + 1) := by
        apply hsubbins
        rw [dictMem_keys_mem]
        unfold dictKeys
        exact List.mem_map.mpr ⟨p, hp, rfl⟩
      rw [if_pos hpk]
      rw [div_mul_eq_mul_div, div_eq_mul_inv, mul_assoc]
      congr 1
      rw [mul_comm]
    show dictValuesSum (demand0.map fun p =>
      (p.1, if p.1 ∈ binRange a (m + 1) then p.2 / s * t else p.2)) = t
    unfold dictValuesSum
    rw [List.map_map]
    have hmapeq : demand0.map (Prod.snd ∘ fun p =>
          ((p.1 : ℤ), if p.1 ∈ binRange a (m + 1) then p.2 / s * t else p.2)) =
        demand0.map fun p => p.2 * (s⁻¹ * t) := by
      apply List.map_congr_left
      intro p hp
      simpa using hall p hp
    rw [hmapeq]
    rw [List.sum_map_mul_right]
    have hvs : (demand0.map fun p => p.2).sum = s := rfl
    rw [hvs]
    rw [← mul_assoc]
    rw [mul_inv_cancel₀ hsum, one_mul]

/-- Witness for C10 at a concrete input: bins `[0, 1]`, pivots `{1: 5}`; after
construction the caller's dict additionally holds `0 ↦ 0` and `2 ↦ 0` and the
entry `1 ↦ 5` reads unchanged. -/
theorem C10_init_mutates_pivots_witness :
    (dictMem [(1, 5)] 0 = false → dictGet [(1, 5), (0, 0), (2, 0)] 0 = some 0) ∧
      (dictMem [(1, 5)] (1 + 1) = false → dictGet [(1, 5), (0, 0), (2, 0)] (1 + 1) = some 0) ∧
      ∀ k, dictMem [(1, 5)] k = true →
        dictGet [(1, 5), (0, 0), (2, 0)] k = dictGet [(1, 5)] k :=
  C10_init_mutates_pivots [0, 1] [(1, 5)] none 0 1 [(0, 0), (1, 5)] [(1, 5), (0, 0), (2, 0)]
    (by simp) (by simp)
    (by norm_num [PivotDistributionSampler.init, PivotDistributionSampler.buildDemand,
      PivotDistributionSampler.assignPair, PivotDistributionSampler.interpolate,
      dictMem, dictGet, dictSet, dictKeys, List.mergeSort, List.merge])

/-- Witness for C9 at the same concrete input. -/
theorem C9_init_interpolation_witness :
    (dictMem [(1, 5)] 0 = false → dictGet [(1, 5), (0, 0), (2, 0)] 0 = some 0) ∧
      (dictMem [(1, 5)] (1 + 1) = false → dictGet [(1, 5), (0, 0), (2, 0)] (1 + 1) = some 0) ∧
      (∀ l1 ka kb l2,
        (dictKeys [(1, 5), (0, 0), (2, 0)]).mergeSort (fun a b => decide (a ≤ b))
          = l1 ++ ka :: kb :: l2 →
        ∀ i, i ∈ [0, 1] → ka ≤ i → i < kb →
        ∀ pa pb, dictGet [(1, 5), (0, 0), (2, 0)] ka = some pa →
          dictGet [(1, 5), (0, 0), (2, 0)] kb = some pb →
          dictGet [(0, 0), (1, 5)] i
            = some (pa + ((i:ℚ) - (ka:ℚ)) * (pb - pa) / ((kb:ℚ) - (ka:ℚ)))) ∧
      (∀ i ka a b, PivotDistributionSampler.interpolate i ka a ka b = none) :=
  C9_init_interpolation [0, 1] [(1, 5)] 0 1 [(0, 0), (1, 5)] [(1, 5), (0, 0), (2, 0)]
    (by simp) (by simp) (by simp [dictKeys])
    (by norm_num [PivotDistributionSampler.init, PivotDistributionSampler.buildDemand,
      PivotDistributionSampler.assignPair, PivotDistributionSampler.interpolate,
      dictMem, dictGet, dictSet, dictKeys, List.mergeSort, List.merge])

/-- Witness for C8 at a concrete input: bins `0, 1`, pivots `{1: 5}` (raw sum
5), total 10; the normalized dense values sum to 10 exactly. -/
theorem C8_init_total_sum_witness :
    ∃ demand', PivotDistributionSampler.init (binRange 0 (1 + 1)) [(1, 5)] (some 10)
        = .ok (demand', [(1, 5), (0, 0), (2, 0)]) ∧ dictValuesSum demand' = 10 :=
  C8_init_total_sum 0 1 [(1, 5)] 10 [(0, 0), (1, 5)] [(1, 5), (0, 0), (2, 0)]
    (by simp [dictKeys])
    (by norm_num [PivotDistributionSampler.init, PivotDistributionSampler.buildDemand,
      PivotDistributionSampler.assignPair, PivotDistributionSampler.interpolate,
      dictMem, dictGet, dictSet, dictKeys, List.mergeSort, List.merge,
      binRange, List.range_succ])
    (by norm_num [dictValuesSum])

theorem pyInt_nonneg (q : ℚ) (h : 0 ≤ q) : 0 ≤ pyInt q := by
  unfold pyInt
  rw [if_pos h]
  exact Int.floor_nonneg.mpr h

theorem pyGet_coe {α : Type _} (l : List α) (k : ℕ) : pyGet l (k : ℤ) = l.get? k := by
  unfold pyGet
  have h1 : ¬ ((k : ℤ) < 0) := by exact_mod_cast Int.not_lt.mpr (Int.natCast_nonneg k)
  simp only [h1, if_false, if_neg h1]
  rw [Int.toNat_natCast]

theorem pyGet_last {α : Type _} (l : List α) (h : l ≠ []) :
    pyGet l (-1) = l.getLast? := by
  unfold pyGet
  have hlen : 1 ≤ l.length := List.length_pos.mpr h
  have h1 : ((-1 : ℤ) < 0) := by norm_num
  simp only [h1, if_true, if_pos h1]
  have h2 : ¬ ((-1 : ℤ) + l.length < 0) := by omega
  rw [if_neg h2]
  have h3 : ((-1 : ℤ) + l.length).toNat = l.length - 1 := by omega
  rw [h3]
  rw [List.getLast?_eq_get? l]

theorem chainFrom_mono {P : Type _} (c m c2 : ℤ) (es : List (Entity P)) (hcm : c ≤ m)
    (h : chainFrom m es c2) : chainFrom c es c2 := by
  cases es with
  | nil => exact le_trans hcm h
  | cons e es => exact ⟨le_trans hcm h.1, h.2.1, h.2.2⟩

theorem chainFrom_append {P : Type _} (l1 : List (Entity P)) :
    ∀ (l2 : List (Entity P)) (c m c2 : ℤ), chainFrom c l1 m → chainFrom m l2 c2 →
    chainFrom c (l1 ++ l2) c2 := by
  induction l1 with
  | nil =>
    intro l2 c m c2 h1 h2
    exact chainFrom_mono c m c2 l2 h1 h2
  | cons e l1 ih =>
    intro l2 c m c2 h1 h2
    exact ⟨h1.1, h1.2.1, ih l2 _ m c2 h1.2.2 h2⟩

theorem tourMonotone_of_chain {P : Type _} (es : List (Entity P)) :
    ∀ c c2, chainFrom c es c2 → tourMonotone es = true := by
  induction es with
  | nil => intro c c2 _; rfl
  | cons e es ih =>
    intro c c2 h
    cases es with
    | nil =>
      unfold tourMonotone
      simp only [decide_eq_true_eq]
      exact h.2.1
    | cons e2 r =>
      unfold tourMonotone
      simp only [Bool.and_eq_true, decide_eq_true_eq]
      have h3 := h.2.2
      exact ⟨⟨h.2.1, h3.1⟩, ih _ _ h3⟩

theorem mad_components {P : Type _} (pdist : P → P → ℚ) (o d : P) (c : ℤ) :
    ActivityDuration.model_activity_duration pdist o d c (50000 / 3600) 3600 600 =
      (max 600 (min (pdist o d * (7 / 5) / (50000 / 3600)) 3600), c,
        c + pyInt (pdist o d * (7 / 5) / (50000 / 3600) / 60)) := rfl

theorem mad_cursor_le {P : Type _} (pdist : P → P → ℚ) (o d : P) (c : ℤ)
    (h : 0 ≤ pdist o d) :
    c ≤ (ActivityDuration.model_activity_duration pdist o d c (50000 / 3600) 3600 600).2.2 := by
  rw [mad_components]
  show c ≤ c + pyInt (pdist o d * (7 / 5) / (50000 / 3600) / 60)
  have hdur : (0:ℚ) ≤ pdist o d * (7 / 5) / (50000 / 3600) / 60 := by positivity
  have := pyInt_nonneg _ hdur
  omega

theorem mad_dwell_nonneg {P : Type _} (pdist : P → P → ℚ) (o d : P) (c : ℤ) :
    0 ≤ pyInt ((ActivityDuration.model_activity_duration pdist o d c
      (50000 / 3600) 3600 600).1 / 60) := by
  rw [mad_components]
  apply pyInt_nonneg
  have h600 : (600:ℚ) ≤ max 600 (min (pdist o d * (7 / 5) / (50000 / 3600)) 3600) :=
    le_max_left _ _
  have : (0:ℚ) ≤ max 600 (min (pdist o d * (7 / 5) / (50000 / 3600)) 3600) := by linarith
  positivity

theorem applyLoop_spec {P : Type _} (tp : TourPlanner) (pdist : P → P → ℚ) (o_loc : P)
    (d_zones : List Zone) (d_locs : List P)
    (hda : tp.d_activity ≠ tp.o_activity) (hdr : tp.d_activity ≠ "return_origin")
    (hdist : ∀ p q, 0 ≤ pdist p q)
    (hlz : d_zones.length = tp.stops) (hll : d_locs.length = tp.stops) :
    ∀ (rem k : ℕ) (c : ℤ), k + rem = tp.stops →
    ∃ ents c2 t, tp.applyLoop pdist o_loc d_zones d_locs rem k c = .ok (ents, c2, t) ∧
      k ≤ t ∧ t ≤ tp.stops ∧ ents.length = 2 * (t - k) ∧ chainFrom c ents c2 ∧
      (∀ a : ActivityE P, Entity.act a ∈ ents →
        a.act = tp.d_activity ∧ a.end_time.toMin < 1440) := by
  intro rem
  induction rem with
  | zero =>
    intro k c hk
    refine ⟨[], c, k, rfl, le_refl k, by omega, by simp, le_refl c, by simp⟩
  | succ rem ih =>
    intro k c hk
    have hkst : k < tp.stops := by omega
    have hkl : k < d_locs.length := by omega
    rcases List.get?_eq_get hkl with hget
    have hpg : pyGet d_locs (k : ℤ) = some (d_locs.get ⟨k, hkl⟩) := by
      rw [pyGet_coe]
      exact hget
    set dlk := d_locs.get ⟨k, hkl⟩ with hdlk
    set md := ActivityDuration.model_activity_duration pdist o_loc dlk c
      (50000 / 3600) 3600 600 with hmd
    by_cases hbound : atOrPastEOD md.2.2 ∨ atOrPastEOD (md.2.2 + pyInt (md.1 / 60))
    · refine ⟨[], md.2.2, k, ?_, le_refl k, by omega, by simp, ?_, by simp⟩
      · rw [TourPlanner.applyLoop]
        rw [hpg]
        simp only [← hdlk, ← hmd]
        rw [if_pos hbound]
      · show chainFrom c [] md.2.2
        unfold chainFrom
        rw [hmd]
        exact mad_cursor_le pdist o_loc dlk c (hdist o_loc dlk)
    · have hnb1 : md.2.2 < 1440 := by
        have h1 : ¬ (1440 ≤ md.2.2) := fun h => hbound (Or.inl h)
        omega
      have hnb2 : md.2.2 + pyInt (md.1 / 60) < 1440 := by
        have h1 : ¬ (1440 ≤ md.2.2 + pyInt (md.1 / 60)) := fun h => hbound (Or.inr h)
        omega
      have hkz : k < d_zones.length := by omega
      have hpgz : pyGet d_zones (k : ℤ) = some (d_zones.get ⟨k, hkz⟩) := by
        rw [pyGet_coe]
        exact List.get?_eq_get hkz
      set dzk := d_zones.get ⟨k, hkz⟩ with hdzk
      -- the previous point of the leg
      have hprev : ∃ pz pl,
          (if k = 0 then some (tp.o_zone, o_loc) else
            match pyGet d_zones ((k : ℤ) - 1), pyGet d_locs ((k : ℤ) - 1) with
            | some z, some l => some (z, l)
            | _, _ => none) = some (pz, pl) := by
        by_cases hk0 : k = 0
        · exact ⟨tp.o_zone, o_loc, by rw [if_pos hk0]⟩
        · have hk1 : k - 1 < d_zones.length := by omega
          have hk1' : k - 1 < d_locs.length := by omega
          have hc1 : ((k : ℤ) - 1) = ((k - 1 : ℕ) : ℤ) := by omega
          refine ⟨d_zones.get ⟨k - 1, hk1⟩, d_locs.get ⟨k - 1, hk1'⟩, ?_⟩
          rw [if_neg hk0, hc1, pyGet_coe, pyGet_coe,
            List.get?_eq_get hk1, List.get?_eq_get hk1']
      rcases hprev with ⟨pz, pl, hprev⟩
      have hact : tp.add_tour_activity (k : ℤ) dzk dlk tp.d_activity
          (.stop (TourPlanner.add_tour_leg (k : ℤ) pz pl dzk dlk md.2.1 md.2.2).2 md.1) =
          .ok (⟨(k : ℤ) + 2, tp.d_activity, dzk, dlk, md.2.2,
            .clock (md.2.2 + pyInt (md.1 / 60))⟩, .clock (md.2.2 + pyInt (md.1 / 60))) := by
        unfold TourPlanner.add_tour_activity
        rw [if_neg hda, if_neg hdr]
        rfl
      rcases ih (k + 1) (md.2.2 + pyInt (md.1 / 60)) (by omega) with
        ⟨ents, c2, t, hok, hkt, hts, hlen, hchain, hacts⟩
      refine ⟨Entity.leg (TourPlanner.add_tour_leg (k : ℤ) pz pl dzk dlk md.2.1 md.2.2).1 ::
          Entity.act ⟨(k : ℤ) + 2, tp.d_activity, dzk, dlk, md.2.2,
            .clock (md.2.2 + pyInt (md.1 / 60))⟩ :: ents, c2, t, ?_, by omega, hts, ?_, ?_, ?_⟩
      · rw [TourPlanner.applyLoop]
        rw [hpg]
        simp only [← hdlk, ← hmd]
        rw [if_neg hbound]
        rw [hprev, hpgz]
        simp only [← hdzk]
        rw [hact]
        simp only []
        rw [hok]
      · simp only [List.length_cons, hlen]
        omega
      · show chainFrom c (_ :: _ :: ents) c2
        have hce2 : c ≤ md.2.2 := by
          rw [hmd]
          exact mad_cursor_le pdist o_loc dlk c (hdist o_loc dlk)
        have hdw : 0 ≤ pyInt (md.1 / 60) := by
          rw [hmd]
          exact mad_dwell_nonneg pdist o_loc dlk c
        have hstart : md.2.1 = c := by rw [hmd, mad_components]
        refine ⟨?_, ?_, ?_, ?_, ?_⟩
        · show c ≤ entStartMin _
          unfold entStartMin
          show c ≤ (TourPlanner.add_tour_leg (k : ℤ) pz pl dzk dlk md.2.1 md.2.2).1.start_time
          unfold TourPlanner.add_tour_leg
          simp only []
          omega
        · show entStartMin _ ≤ entEndMin _
          unfold entStartMin entEndMin TourPlanner.add_tour_leg
          simp only []
          omega
        · show entEndMin _ ≤ entStartMin _
          unfold entStartMin entEndMin TourPlanner.add_tour_leg
          simp only []
          omega
        · show entStartMin _ ≤ entEndMin _
          unfold entStartMin entEndMin ETime.toMin
          simp only []
          omega
        · show chainFrom _ ents c2
          unfold entEndMin ETime.toMin
          simp only []
          exact hchain
      · intro a ha
        rcases List.mem_cons.mp ha with h1 | h1
        · exact absurd h1 (by simp)
        rcases List.mem_cons.mp h1 with h2 | h2
        · have : a = ⟨(k : ℤ) + 2, tp.d_activity, dzk, dlk, md.2.2,
              .clock (md.2.2 + pyInt (md.1 / 60))⟩ := by
            injection h2
          subst this
          exact ⟨rfl, by unfold ETime.toMin; simp only []; omega⟩
        · exact hacts a h2

theorem add_tour_activity_origin {P : Type _} (tp : TourPlanner) (o_loc : P) :
    tp.add_tour_activity 1 tp.o_zone o_loc tp.o_activity (.origin tp.hour tp.minute) =
      .ok (⟨1, tp.o_activity, tp.o_zone, o_loc, 0, .clock (tp.hour * 60 + tp.minute)⟩,
        .clock (tp.hour * 60 + tp.minute)) := by
  unfold TourPlanner.add_tour_activity
  rw [if_pos rfl]

theorem add_return_origin_spec {P : Type _} (tp : TourPlanner) (pdist : P → P → ℚ) (kk : ℤ)
    (o_loc : P) (dz : Zone) (dl : P) (c : ℤ) (ho : tp.o_activity ≠ "return_origin") :
    tp.add_return_origin pdist kk o_loc dz dl c =
      .ok ([Entity.leg ⟨kk + 1, "car", dz, tp.o_zone, dl, o_loc, c,
          c + pyInt (pdist o_loc dl * (7 / 5) / (50000 / 3600) / 60)⟩,
        Entity.act ⟨kk + 2, tp.o_activity, tp.o_zone, o_loc,
          c + pyInt (pdist o_loc dl * (7 / 5) / (50000 / 3600) / 60), .eod⟩], .eod) := by
  have h1 : ¬ ("return_origin" = tp.o_activity) := fun h => ho h.symm
  unfold TourPlanner.add_return_origin TourPlanner.add_tour_leg TourPlanner.add_tour_activity
    ActivityDuration.model_distance ActivityDuration.model_journey_time
  simp only [if_neg h1, if_true]

theorem apply_spec {P : Type _} (tp : TourPlanner) (pdist : P → P → ℚ) (o_loc : P)
    (d_zones : List Zone) (d_locs : List P) (es : List (Entity P))
    (hda : tp.d_activity ≠ tp.o_activity) (hdr : tp.d_activity ≠ "return_origin")
    (ho : tp.o_activity ≠ "return_origin") (hdist : ∀ p q, 0 ≤ pdist p q)
    (hlz : d_zones.length = tp.stops) (hll : d_locs.length = tp.stops)
    (happly : TourPlanner.apply tp pdist o_loc d_zones d_locs = .ok es) :
    ∃ ents c2 t dz dl rt,
      tp.applyLoop pdist o_loc d_zones d_locs tp.stops 0 (tp.hour * 60 + tp.minute)
        = .ok (ents, c2, t) ∧
      t ≤ tp.stops ∧ ents.length = 2 * t ∧
      chainFrom (tp.hour * 60 + tp.minute) ents c2 ∧
      (∀ a : ActivityE P, Entity.act a ∈ ents →
        a.act = tp.d_activity ∧ a.end_time.toMin < 1440) ∧
      1 ≤ tp.stops ∧ 0 ≤ rt ∧
      es = Entity.act ⟨1, tp.o_activity, tp.o_zone, o_loc, 0,
          .clock (tp.hour * 60 + tp.minute)⟩ ::
        ents ++
        [Entity.leg ⟨(tp.stops : ℤ) + 1, "car", dz, tp.o_zone, dl, o_loc, c2, c2 + rt⟩,
         Entity.act ⟨(tp.stops : ℤ) + 2, tp.o_activity, tp.o_zone, o_loc, c2 + rt, .eod⟩] := by
  unfold TourPlanner.apply at happly
  rw [add_tour_activity_origin] at happly
  simp only [] at happly
  rcases applyLoop_spec tp pdist o_loc d_zones d_locs hda hdr hdist hlz hll tp.stops 0
    (tp.hour * 60 + tp.minute) (by omega) with ⟨ents, c2, t, hok, _, hts, hlen, hchain, hacts⟩
  rw [hok] at happly
  simp only [] at happly
  by_cases hs0 : tp.stops = 0
  · exfalso
    have hz : d_zones = [] := List.length_eq_zero.mp (by omega)
    have hneg : pyGet d_zones ((tp.stops : ℤ) - 1) = none := by
      rw [hz, hs0]
      rfl
    rw [hneg] at happly
    exact absurd happly (by simp)
  · have hs1 : 1 ≤ tp.stops := by omega
    have hidx : ((tp.stops : ℤ) - 1) = ((tp.stops - 1 : ℕ) : ℤ) := by omega
    have hiz : tp.stops - 1 < d_zones.length := by omega
    have hil : tp.stops - 1 < d_locs.length := by omega
    have hgz : pyGet d_zones ((tp.stops : ℤ) - 1) = some (d_zones.get ⟨tp.stops - 1, hiz⟩) := by
      rw [hidx, pyGet_coe]
      exact List.get?_eq_get hiz
    have hgl : pyGet d_locs ((tp.stops : ℤ) - 1) = some (d_locs.get ⟨tp.stops - 1, hil⟩) := by
      rw [hidx, pyGet_coe]
      exact List.get?_eq_get hil
    rw [hgz, hgl] at happly
    simp only [] at happly
    rw [add_return_origin_spec tp pdist (tp.stops : ℤ) o_loc _ _ c2 ho] at happly
    simp only [] at happly
    refine ⟨ents, c2, t, d_zones.get ⟨tp.stops - 1, hiz⟩, d_locs.get ⟨tp.stops - 1, hil⟩,
      pyInt (pdist o_loc (d_locs.get ⟨tp.stops - 1, hil⟩) * (7 / 5) / (50000 / 3600) / 60),
      hok, hts, by omega, hchain, hacts, hs1, ?_, ?_⟩
    · apply pyInt_nonneg
      have := hdist o_loc (d_locs.get ⟨tp.stops - 1, hil⟩)
      positivity
    · exact (Except.ok.inj happly).symm

/-- C3: when the leg arrival time or the arrival-plus-dwell time reaches or
exceeds the end-of-day sentinel at a stop, the loop stops immediately — no Leg
or destination Activity is appended for that stop or any later stop and
control passes straight to the return phase with the updated cursor — and
consequently no appended destination Activity ends at or past the sentinel. -/
theorem C3_boundary_truncation {P : Type _} (tp : TourPlanner) (pdist : P → P → ℚ)
    (o_loc : P) (d_zones : List Zone) (d_locs : List P)
    (hda : tp.d_activity ≠ tp.o_activity) (hdr : tp.d_activity ≠ "return_origin")
    (ho : tp.o_activity ≠ "return_origin") (hdist : ∀ p q, 0 ≤ pdist p q)
    (hlz : d_zones.length = tp.stops) (hll : d_locs.length = tp.stops) :
    (∀ (rem k : ℕ) (c : ℤ) (dlk : P), pyGet d_locs (k : ℤ) = some dlk →
      (atOrPastEOD (ActivityDuration.model_activity_duration pdist o_loc dlk c
          (50000 / 3600) 3600 600).2.2 ∨
        atOrPastEOD ((ActivityDuration.model_activity_duration pdist o_loc dlk c
          (50000 / 3600) 3600 600).2.2 +
          pyInt ((ActivityDuration.model_activity_duration pdist o_loc dlk c
            (50000 / 3600) 3600 600).1 / 60))) →
      tp.applyLoop pdist o_loc d_zones d_locs (rem + 1) k c =
        .ok ([], (ActivityDuration.model_activity_duration pdist o_loc dlk c
          (50000 / 3600) 3600 600).2.2, k)) ∧
    (∀ es, TourPlanner.apply tp pdist o_loc d_zones d_locs = .ok es →
      ∀ a : ActivityE P, Entity.act a ∈ es → a.act = tp.d_activity →
        a.end_time.toMin < 1440) := by
  constructor
  · intro rem k c dlk hpg hcond
    rw [TourPlanner.applyLoop, hpg]
    simp only []
    rw [if_pos hcond]
  · intro es happly a hmem hact
    rcases apply_spec tp pdist o_loc d_zones d_locs es hda hdr ho hdist hlz hll happly with
      ⟨ents, c2, t, dz, dl, rt, _, _, _, _, hacts, _, _, hes⟩
    rw [hes] at hmem
    rcases List.mem_cons.mp hmem with h1 | h1
    · exfalso
      have : a.act = tp.o_activity := by
        injection h1 with h2
        rw [h2]
      exact hda (hact ▸ this ▸ rfl)
    rcases List.mem_append.mp h1 with h2 | h2
    · exact (hacts a h2).2
    · rcases List.mem_cons.mp h2 with h3 | h3
      · exact absurd h3 (by simp)
      · rcases List.mem_cons.mp h3 with h4 | h4
        · exfalso
          have : a.act = tp.o_activity := by
            injection h4 with h5
            rw [h5]
          exact hda (hact ▸ this ▸ rfl)
        · exact absurd h4 (List.not_mem_nil _)

/-- C4 (amended): the final appended Activity's end time is the end-of-day
sentinel exactly, and times are monotonically non-decreasing through every
entity up to and including the return leg; monotonicity extends through the
final Activity exactly when the return leg's arrival (the final Activity's
start) is at most the sentinel minute — the unconditional claim fails when the
return trip overshoots the day end (see the counterexample). -/
theorem C4_amended {P : Type _} (tp : TourPlanner) (pdist : P → P → ℚ) (o_loc : P)
    (d_zones : List Zone) (d_locs : List P) (es : List (Entity P))
    (hda : tp.d_activity ≠ tp.o_activity) (hdr : tp.d_activity ≠ "return_origin")
    (ho : tp.o_activity ≠ "return_origin") (hdist : ∀ p q, 0 ≤ pdist p q)
    (hlz : d_zones.length = tp.stops) (hll : d_locs.length = tp.stops)
    (hh : 0 ≤ tp.hour) (hm : 0 ≤ tp.minute)
    (happly : TourPlanner.apply tp pdist o_loc d_zones d_locs = .ok es) :
    (∃ a : ActivityE P, es.getLast? = some (Entity.act a) ∧ a.end_time = .eod ∧
      a.act = tp.o_activity) ∧
      tourMonotone es.dropLast = true ∧
      (∀ a : ActivityE P, es.getLast? = some (Entity.act a) → a.start_time ≤ 1440 →
        tourMonotone es = true) := by
  rcases apply_spec tp pdist o_loc d_zones d_locs es hda hdr ho hdist hlz hll happly with
    ⟨ents, c2, t, dz, dl, rt, _, _, _, hchain, _, _, hrt, hes⟩
  set e0 : Entity P := Entity.act ⟨1, tp.o_activity, tp.o_zone, o_loc, 0,
    .clock (tp.hour * 60 + tp.minute)⟩ with he0
  set lgR : Entity P := Entity.leg ⟨(tp.stops : ℤ) + 1, "car", dz, tp.o_zone, dl, o_loc, c2,
    c2 + rt⟩ with hlgR
  set aR : ActivityE P := ⟨(tp.stops : ℤ) + 2, tp.o_activity, tp.o_zone, o_loc, c2 + rt,
    .eod⟩ with haR
  have hes2 : es = ((e0 :: ents) ++ [lgR]) ++ [Entity.act aR] := by
    rw [hes]
    simp [he0, hlgR, haR]
  have hlast : es.getLast? = some (Entity.act aR) := by
    rw [hes2]
    exact List.getLast?_concat _
  have hchain2 : chainFrom 0 ((e0 :: ents) ++ [lgR]) (c2 + rt) := by
    have h1 : chainFrom (tp.hour * 60 + tp.minute) (ents ++ [lgR]) (c2 + rt) := by
      apply chainFrom_append ents [lgR] _ c2 _ hchain
      show c2 ≤ entStartMin lgR ∧ entStartMin lgR ≤ entEndMin lgR ∧
        chainFrom (entEndMin lgR) [] (c2 + rt)
      unfold entStartMin entEndMin
      rw [hlgR]
      simp only []
      exact ⟨le_refl c2, by omega, by unfold chainFrom; omega⟩
    show chainFrom 0 (e0 :: (ents ++ [lgR])) (c2 + rt)
    refine ⟨?_, ?_, ?_⟩
    · show (0:ℤ) ≤ entStartMin e0
      unfold entStartMin
      rw [he0]
    · show entStartMin e0 ≤ entEndMin e0
      unfold entStartMin entEndMin ETime.toMin
      rw [he0]
      simp only []
      omega
    · show chainFrom (entEndMin e0) (ents ++ [lgR]) (c2 + rt)
      have : entEndMin e0 = tp.hour * 60 + tp.minute := by
        unfold entEndMin ETime.toMin
        rw [he0]
      rw [this]
      exact h1
  refine ⟨⟨aR, hlast, rfl, rfl⟩, ?_, ?_⟩
  · rw [hes2, List.dropLast_concat]
    exact tourMonotone_of_chain _ _ _ hchain2
  · intro a hga hstart
    have haaR : a = aR := by
      rw [hlast] at hga
      have h2 := Option.some.inj hga
      injection h2 with h3
      exact h3.symm
    subst haaR
    have hfull : chainFrom 0 es 1440 := by
      rw [hes2]
      apply chainFrom_append _ _ _ (c2 + rt) _ hchain2
      show c2 + rt ≤ entStartMin (Entity.act aR) ∧
        entStartMin (Entity.act aR) ≤ entEndMin (Entity.act aR) ∧
        chainFrom (entEndMin (Entity.act aR)) [] 1440
      unfold entStartMin entEndMin ETime.toMin
      rw [haR]
      simp only []
      refine ⟨le_refl _, ?_, by unfold chainFrom; omega⟩
      rw [haR] at hstart
      simp only [] at hstart
      exact hstart
    exact tourMonotone_of_chain _ _ _ hfull

/-- C2 (amended): a tour `apply` emits without error has exactly `2t + 3`
entities where `t` is the number of completed stops — `2n + 3` when no
boundary truncation occurs (`t = n = stops`), fewer when truncated — and it
always ends with an origin Activity (end = sentinel) immediately preceded by
a Leg.  The claim's `2n + 2` count is off by one (see the counterexample). -/
theorem C2_amended {P : Type _} (tp : TourPlanner) (pdist : P → P → ℚ) (o_loc : P)
    (d_zones : List Zone) (d_locs : List P) (es : List (Entity P))
    (hda : tp.d_activity ≠ tp.o_activity) (hdr : tp.d_activity ≠ "return_origin")
    (ho : tp.o_activity ≠ "return_origin") (hdist : ∀ p q, 0 ≤ pdist p q)
    (hlz : d_zones.length = tp.stops) (hll : d_locs.length = tp.stops)
    (happly : TourPlanner.apply tp pdist o_loc d_zones d_locs = .ok es) :
    ∃ ents c2 t, tp.applyLoop pdist o_loc d_zones d_locs tp.stops 0
        (tp.hour * 60 + tp.minute) = .ok (ents, c2, t) ∧
      t ≤ tp.stops ∧ es.length = 2 * t + 3 ∧
      (t = tp.stops ∨ es.length < 2 * tp.stops + 3) ∧
      ∃ front lg a, es = front ++ [Entity.leg lg, Entity.act a] ∧
        a.act = tp.o_activity ∧ a.end_time = .eod := by
  rcases apply_spec tp pdist o_loc d_zones d_locs es hda hdr ho hdist hlz hll happly with
    ⟨ents, c2, t, dz, dl, rt, hok, hts, hlen, _, _, _, _, hes⟩
  have hlen2 : es.length = 2 * t + 3 := by
    rw [hes]
    simp [hlen]
  refine ⟨ents, c2, t, hok, hts, hlen2, ?_, ?_⟩
  · rcases Nat.lt_or_ge t tp.stops with h1 | h1
    · right; omega
    · left; omega
  · exact ⟨Entity.act ⟨1, tp.o_activity, tp.o_zone, o_loc, 0,
        .clock (tp.hour * 60 + tp.minute)⟩ :: ents,
      ⟨(tp.stops : ℤ) + 1, "car", dz, tp.o_zone, dl, o_loc, c2, c2 + rt⟩,
      ⟨(tp.stops : ℤ) + 2, tp.o_activity, tp.o_zone, o_loc, c2 + rt, .eod⟩,
      by rw [hes], rfl, rfl⟩

/-- C1 (amended): with `stops == 0` the per-stop loop never executes, and
provided the supplied zone and location lists are nonempty, `apply` emits
exactly three entities: the origin Activity (start 0, end `hour*60+minute`),
a return Leg, and a final origin Activity ending at the sentinel.  With the
empty lists `sequence_stops` actually produces for `stops == 0`, `apply`
instead raises `IndexError` (`d_zones[-1]` on an empty list; see the
counterexample). -/
theorem C1_amended {P : Type _} (tp : TourPlanner) (pdist : P → P → ℚ) (o_loc : P)
    (d_zones : List Zone) (d_locs : List P)
    (h0 : tp.stops = 0) (hz : d_zones ≠ []) (hl : d_locs ≠ [])
    (ho : tp.o_activity ≠ "return_origin") :
    ∃ dz dl rt, d_zones.getLast? = some dz ∧ d_locs.getLast? = some dl ∧
      TourPlanner.apply tp pdist o_loc d_zones d_locs = .ok
        [Entity.act ⟨1, tp.o_activity, tp.o_zone, o_loc, 0,
            .clock (tp.hour * 60 + tp.minute)⟩,
          Entity.leg ⟨(tp.stops : ℤ) + 1, "car", dz, tp.o_zone, dl, o_loc,
            tp.hour * 60 + tp.minute, tp.hour * 60 + tp.minute + rt⟩,
          Entity.act ⟨(tp.stops : ℤ) + 2, tp.o_activity, tp.o_zone, o_loc,
            tp.hour * 60 + tp.minute + rt, .eod⟩] := by
  have hzlast : ∃ dz, d_zones.getLast? = some dz := by
    cases hgl : d_zones.getLast? with
    | none => exact absurd (List.getLast?_eq_none_iff.mp hgl) hz
    | some dz => exact ⟨dz, rfl⟩
  have hllast : ∃ dl, d_locs.getLast? = some dl := by
    cases hgl : d_locs.getLast? with
    | none => exact absurd (List.getLast?_eq_none_iff.mp hgl) hl
    | some dl => exact ⟨dl, rfl⟩
  rcases hzlast with ⟨dz, hdz⟩
  rcases hllast with ⟨dl, hdl⟩
  refine ⟨dz, dl, pyInt (pdist o_loc dl * (7 / 5) / (50000 / 3600) / 60), hdz, hdl, ?_⟩
  unfold TourPlanner.apply
  rw [add_tour_activity_origin]
  simp only []
  rw [h0]
  simp only [TourPlanner.applyLoop]
  have hidx : ((0 : ℕ) : ℤ) - 1 = (-1 : ℤ) := by norm_num
  rw [hidx, pyGet_last d_zones hz, pyGet_last d_locs hl, hdz, hdl]
  simp only []
  rw [add_return_origin_spec tp pdist ((0 : ℕ) : ℤ) o_loc dz dl
    (tp.hour * 60 + tp.minute) ho]
  rfl

theorem pyInt_eval (q : ℚ) (n : ℤ) (h3 : 0 ≤ q) (h1 : (n : ℚ) ≤ q) (h2 : q < n + 1) :
    pyInt q = n := by
  unfold pyInt
  rw [if_pos h3]
  rw [Int.floor_eq_iff]
  exact ⟨h1, h2⟩

/-- Counterexample to C1 as stated: with `stops == 0` and the empty stop
lists that `sequence_stops` returns for zero stops, `apply` raises
`IndexError` instead of emitting three entities. -/
theorem C1_counterexample :
    TourPlanner.apply ⟨0, 8, 0, "A", "home", "shop"⟩ (fun a b : ℚ => |a - b|) 0 [] []
      = .error .indexError := by
  norm_num [TourPlanner.apply, TourPlanner.add_tour_activity, TourPlanner.applyLoop, pyGet]

/-- Counterexample to C2 as stated: a one-stop tour with no truncation
(the loop completes all `t = 1` stops) appends 5 entities, not
`2 * 1 + 2 = 4`. -/
theorem C2_counterexample :
    (TourPlanner.apply ⟨1, 8, 0, "A", "home", "shop"⟩ (fun a b : ℚ => |a - b|) 0 ["B"]
        [(10000 : ℚ)]).map List.length = .ok 5 ∧
      5 ≠ 2 * 1 + 2 ∧
      (TourPlanner.applyLoop ⟨1, 8, 0, "A", "home", "shop"⟩ (fun a b : ℚ => |a - b|) 0 ["B"]
        [(10000 : ℚ)] 1 0 480).map (fun r => r.2.2) = .ok 1 := by
  have h16 : pyInt ((84:ℚ)/5) = 16 := pyInt_eval _ 16 (by norm_num) (by norm_num) (by norm_num)
  have hs1 : ("shop" : String) ≠ "home" := by decide
  have hs2 : ("shop" : String) ≠ "return_origin" := by decide
  have hs3 : ("return_origin" : String) ≠ "home" := by decide
  refine ⟨?_, by norm_num, ?_⟩ <;>
    norm_num [TourPlanner.apply, TourPlanner.add_tour_activity, TourPlanner.applyLoop,
      TourPlanner.add_tour_leg, TourPlanner.add_return_origin,
      ActivityDuration.model_activity_duration, ActivityDuration.model_distance,
      ActivityDuration.model_journey_time, ActivityDuration.model_stop_time,
      pyGet, atOrPastEOD, Except.map, h16, hs1, hs2, hs3]

/-- Counterexample to C4 as stated: a far stop (280 km) makes the return leg
arrive at minute 1480, past the sentinel minute 1440, so the final Activity
starts after its sentinel end and the emitted sequence is not monotone. -/
theorem C4_counterexample :
    TourPlanner.apply ⟨1, 8, 0, "A", "home", "shop"⟩ (fun a b : ℚ => |a - b|) 0 ["B"]
        [(280000 : ℚ)] = .ok
      [Entity.act ⟨1, "home", "A", 0, 0, .clock 480⟩,
        Entity.leg ⟨1, "car", "A", "B", 0, 280000, 480, 950⟩,
        Entity.act ⟨2, "shop", "B", 280000, 950, .clock 1010⟩,
        Entity.leg ⟨2, "car", "B", "A", 280000, 0, 1010, 1480⟩,
        Entity.act ⟨3, "home", "A", 0, 1480, .eod⟩] ∧
      tourMonotone
        [Entity.act (⟨1, "home", "A", 0, 0, .clock 480⟩ : ActivityE ℚ),
          Entity.leg ⟨1, "car", "A", "B", 0, 280000, 480, 950⟩,
          Entity.act ⟨2, "shop", "B", 280000, 950, .clock 1010⟩,
          Entity.leg ⟨2, "car", "B", "A", 280000, 0, 1010, 1480⟩,
          Entity.act ⟨3, "home", "A", 0, 1480, .eod⟩] = false := by
  have h470 : pyInt ((2352:ℚ)/5) = 470 :=
    pyInt_eval _ 470 (by norm_num) (by norm_num) (by norm_num)
  have h60 : pyInt ((60:ℚ)) = 60 := pyInt_eval _ 60 (by norm_num) (by norm_num) (by norm_num)
  have hs1 : ("shop" : String) ≠ "home" := by decide
  have hs2 : ("shop" : String) ≠ "return_origin" := by decide
  have hs3 : ("return_origin" : String) ≠ "home" := by decide
  constructor
  · norm_num [TourPlanner.apply, TourPlanner.add_tour_activity, TourPlanner.applyLoop,
      TourPlanner.add_tour_leg, TourPlanner.add_return_origin,
      ActivityDuration.model_activity_duration, ActivityDuration.model_distance,
      ActivityDuration.model_journey_time, ActivityDuration.model_stop_time,
      pyGet, atOrPastEOD, h470, h60, hs1, hs2, hs3]
  · decide

/-- Witness for the amended C1 at a concrete input. -/
theorem C1_amended_witness :
    ∃ (dz : Zone) (dl : ℚ) (rt : ℤ), (["B"] : List Zone).getLast? = some dz ∧
      ([(5 : ℚ)] : List ℚ).getLast? = some dl ∧
      TourPlanner.apply ⟨0, 8, 0, "A", "home", "shop"⟩ (fun a b : ℚ => |a - b|) 0 ["B"]
        [(5 : ℚ)] = .ok
        [Entity.act ⟨1, "home", "A", 0, 0, .clock 480⟩,
          Entity.leg ⟨1, "car", dz, "A", dl, 0, 480, 480 + rt⟩,
          Entity.act ⟨2, "home", "A", 0, 480 + rt, .eod⟩] :=
  C1_amended ⟨0, 8, 0, "A", "home", "shop"⟩ (fun a b : ℚ => |a - b|) 0 ["B"] [(5 : ℚ)]
    rfl (by simp) (by simp) (by decide)

/-- Witness for C3 at a concrete input. -/
theorem C3_boundary_truncation_witness :
    (∀ (rem k : ℕ) (c : ℤ) (dlk : ℚ), pyGet [(10000 : ℚ)] (k : ℤ) = some dlk →
      (atOrPastEOD (ActivityDuration.model_activity_duration (fun a b : ℚ => |a - b|) 0 dlk c
          (50000 / 3600) 3600 600).2.2 ∨
        atOrPastEOD ((ActivityDuration.model_activity_duration (fun a b : ℚ => |a - b|) 0 dlk c
          (50000 / 3600) 3600 600).2.2 +
          pyInt ((ActivityDuration.model_activity_duration (fun a b : ℚ => |a - b|) 0 dlk c
            (50000 / 3600) 3600 600).1 / 60))) →
      TourPlanner.applyLoop ⟨1, 8, 0, "A", "home", "shop"⟩ (fun a b : ℚ => |a - b|) 0 ["B"]
        [(10000 : ℚ)] (rem + 1) k c =
        .ok ([], (ActivityDuration.model_activity_duration (fun a b : ℚ => |a - b|) 0 dlk c
          (50000 / 3600) 3600 600).2.2, k)) ∧
    (∀ es, TourPlanner.apply ⟨1, 8, 0, "A", "home", "shop"⟩ (fun a b : ℚ => |a - b|) 0 ["B"]
        [(10000 : ℚ)] = .ok es →
      ∀ a : ActivityE ℚ, Entity.act a ∈ es → a.act = "shop" →
        a.end_time.toMin < 1440) :=
  C3_boundary_truncation ⟨1, 8, 0, "A", "home", "shop"⟩ (fun a b : ℚ => |a - b|) 0 ["B"]
    [(10000 : ℚ)] (by decide) (by decide) (by decide) (fun p q => abs_nonneg _) rfl rfl

/-- Witness for the amended C2 at a concrete input. -/
theorem C2_amended_witness :
    ∃ ents c2 t,
      TourPlanner.applyLoop ⟨1, 8, 0, "A", "home", "shop"⟩ (fun a b : ℚ => |a - b|) 0 ["B"]
        [(10000 : ℚ)] 1 0 480 = .ok (ents, c2, t) ∧
      t ≤ 1 ∧
      ([Entity.act (⟨1, "home", "A", 0, 0, .clock 480⟩ : ActivityE ℚ),
        Entity.leg ⟨1, "car", "A", "B", 0, 10000, 480, 496⟩,
        Entity.act ⟨2, "shop", "B", 10000, 496, .clock 512⟩,
        Entity.leg ⟨2, "car", "B", "A", 10000, 0, 512, 528⟩,
        Entity.act ⟨3, "home", "A", 0, 528, .eod⟩] : List (Entity ℚ)).length = 2 * t + 3 ∧
      (t = 1 ∨
        ([Entity.act (⟨1, "home", "A", 0, 0, .clock 480⟩ : ActivityE ℚ),
          Entity.leg ⟨1, "car", "A", "B", 0, 10000, 480, 496⟩,
          Entity.act ⟨2, "shop", "B", 10000, 496, .clock 512⟩,
          Entity.leg ⟨2, "car", "B", "A", 10000, 0, 512, 528⟩,
          Entity.act ⟨3, "home", "A", 0, 528, .eod⟩] : List (Entity ℚ)).length < 2 * 1 + 3) ∧
      ∃ front lg a,
        ([Entity.act (⟨1, "home", "A", 0, 0, .clock 480⟩ : ActivityE ℚ),
          Entity.leg ⟨1, "car", "A", "B", 0, 10000, 480, 496⟩,
          Entity.act ⟨2, "shop", "B", 10000, 496, .clock 512⟩,
          Entity.leg ⟨2, "car", "B", "A", 10000, 0, 512, 528⟩,
          Entity.act ⟨3, "home", "A", 0, 528, .eod⟩] : List (Entity ℚ))
          = front ++ [Entity.leg lg, Entity.act a] ∧
        a.act = "home" ∧ a.end_time = .eod := by
  have h16 : pyInt ((84:ℚ)/5) = 16 := pyInt_eval _ 16 (by norm_num) (by norm_num) (by norm_num)
  have hs1 : ("shop" : String) ≠ "home" := by decide
  have hs2 : ("shop" : String) ≠ "return_origin" := by decide
  have hs3 : ("return_origin" : String) ≠ "home" := by decide
  exact C2_amended ⟨1, 8, 0, "A", "home", "shop"⟩ (fun a b : ℚ => |a - b|) 0 ["B"]
    [(10000 : ℚ)] _ (by decide) (by decide) (by decide) (fun p q => abs_nonneg _) rfl rfl
    (by norm_num [TourPlanner.apply, TourPlanner.add_tour_activity, TourPlanner.applyLoop,
      TourPlanner.add_tour_leg, TourPlanner.add_return_origin,
      ActivityDuration.model_activity_duration, ActivityDuration.model_distance,
      ActivityDuration.model_journey_time, ActivityDuration.model_stop_time,
      pyGet, atOrPastEOD, h16, hs1, hs2, hs3])

/-- Witness for the amended C4 at a concrete input. -/
theorem C4_amended_witness :
    (∃ a : ActivityE ℚ,
      ([Entity.act (⟨1, "home", "A", 0, 0, .clock 480⟩ : ActivityE ℚ),
        Entity.leg ⟨1, "car", "A", "B", 0, 10000, 480, 496⟩,
        Entity.act ⟨2, "shop", "B", 10000, 496, .clock 512⟩,
        Entity.leg ⟨2, "car", "B", "A", 10000, 0, 512, 528⟩,
        Entity.act ⟨3, "home", "A", 0, 528, .eod⟩] : List (Entity ℚ)).getLast?
          = some (Entity.act a) ∧
      a.end_time = .eod ∧ a.act = "home") ∧
      tourMonotone
        ([Entity.act (⟨1, "home", "A", 0, 0, .clock 480⟩ : ActivityE ℚ),
          Entity.leg ⟨1, "car", "A", "B", 0, 10000, 480, 496⟩,
          Entity.act ⟨2, "shop", "B", 10000, 496, .clock 512⟩,
          Entity.leg ⟨2, "car", "B", "A", 10000, 0, 512, 528⟩,
          Entity.act ⟨3, "home", "A", 0, 528, .eod⟩] : List (Entity ℚ)).dropLast = true ∧
      (∀ a : ActivityE ℚ,
        ([Entity.act (⟨1, "home", "A", 0, 0, .clock 480⟩ : ActivityE ℚ),
          Entity.leg ⟨1, "car", "A", "B", 0, 10000, 480, 496⟩,
          Entity.act ⟨2, "shop", "B", 10000, 496, .clock 512⟩,
          Entity.leg ⟨2, "car", "B", "A", 10000, 0, 512, 528⟩,
          Entity.act ⟨3, "home", "A", 0, 528, .eod⟩] : List (Entity ℚ)).getLast?
            = some (Entity.act a) →
        a.start_time ≤ 1440 →
        tourMonotone
          ([Entity.act (⟨1, "home", "A", 0, 0, .clock 480⟩ : ActivityE ℚ),
            Entity.leg ⟨1, "car", "A", "B", 0, 10000, 480, 496⟩,
            Entity.act ⟨2, "shop", "B", 10000, 496, .clock 512⟩,
            Entity.leg ⟨2, "car", "B", "A", 10000, 0, 512, 528⟩,
            Entity.act ⟨3, "home", "A", 0, 528, .eod⟩] : List (Entity ℚ)) = true) := by
  have h16 : pyInt ((84:ℚ)/5) = 16 := pyInt_eval _ 16 (by norm_num) (by norm_num) (by norm_num)
  have hs1 : ("shop" : String) ≠ "home" := by decide
  have hs2 : ("shop" : String) ≠ "return_origin" := by decide
  have hs3 : ("return_origin" : String) ≠ "home" := by decide
  exact C4_amended ⟨1, 8, 0, "A", "home", "shop"⟩ (fun a b : ℚ => |a - b|) 0 ["B"]
    [(10000 : ℚ)] _ (by decide) (by decide) (by decide) (fun p q => abs_nonneg _) rfl rfl
    (by norm_num) (by norm_num)
    (by norm_num [TourPlanner.apply, TourPlanner.add_tour_activity, TourPlanner.applyLoop,
      TourPlanner.add_tour_leg, TourPlanner.add_return_origin,
      ActivityDuration.model_activity_duration, ActivityDuration.model_distance,
      ActivityDuration.model_journey_time, ActivityDuration.model_stop_time,
      pyGet, atOrPastEOD, h16, hs1, hs2, hs3])
